import Mathlib

/-!
Verification development for the smoke-obscuration planning system:
the obscuration geometry engine (`geometry.py`, `core_objects.py`),
the strategy codec (`optimizer.py` of problem five) and the adaptive
differential-evolution optimizer (`adaptive_de.py`), embedded shallowly.

Real-valued kinematics and geometry are embedded over `ℝ`;
the decision-vector codec and the optimizer, which use only field
arithmetic and comparisons, are embedded executably over `ℚ`.
-/

namespace Spec2Proof

open Real

/-- The Python exception kinds that the embedded code can raise. -/
inductive PyError where
  | valueError
  | indexError
  | keyError
  | zeroDivisionError
deriving DecidableEq, Repr

noncomputable section Geometry

/-- A 3-vector of reals, standing for the numpy length-3 arrays of the source. -/
structure Vec3 where
  x : ℝ
  y : ℝ
  z : ℝ
deriving DecidableEq

namespace Vec3

instance : Add Vec3 := ⟨fun a b => ⟨a.x + b.x, a.y + b.y, a.z + b.z⟩⟩

instance : Sub Vec3 := ⟨fun a b => ⟨a.x - b.x, a.y - b.y, a.z - b.z⟩⟩

instance : SMul ℝ Vec3 := ⟨fun s a => ⟨s * a.x, s * a.y, s * a.z⟩⟩

/-- `np.dot` on 3-vectors. -/
def dot (a b : Vec3) : ℝ := a.x * b.x + a.y * b.y + a.z * b.z

/-- `np.cross` on 3-vectors. -/
def cross (a b : Vec3) : Vec3 :=
  ⟨a.y * b.z - a.z * b.y, a.z * b.x - a.x * b.z, a.x * b.y - a.y * b.x⟩

/-- `np.linalg.norm` on 3-vectors. -/
def norm (a : Vec3) : ℝ := Real.sqrt (dot a a)

theorem add_def (a b : Vec3) : a + b = ⟨a.x + b.x, a.y + b.y, a.z + b.z⟩ := rfl

theorem sub_def (a b : Vec3) : a - b = ⟨a.x - b.x, a.y - b.y, a.z - b.z⟩ := rfl

theorem smul_def (s : ℝ) (a : Vec3) : s • a = ⟨s * a.x, s * a.y, s * a.z⟩ := rfl

end Vec3

/-- `np.clip` for a scalar. -/
def npclip (v lo hi : ℝ) : ℝ := max lo (min v hi)

/-- Physical constant `CLOUD_RADIUS` from `config.py`. -/
def CLOUD_RADIUS : ℝ := 10

/-- Physical constant `CLOUD_SINK_SPEED` from `config.py`. -/
def CLOUD_SINK_SPEED : ℝ := 3

/-- Physical constant `CLOUD_DURATION` from `config.py`. -/
def CLOUD_DURATION : ℝ := 20

/-- The angle `beta` between `p - V` and the unit axis `d`, as computed in the
loop of `check_circle_in_cone`: `arccos` of the clipped normalized dot product. -/
def pointBeta (V d p : Vec3) : ℝ :=
  Real.arccos (npclip (Vec3.dot (p - V) d / Vec3.norm (p - V)) (-1) 1)

/-- The per-point test in the loop of `check_circle_in_cone`: a point whose
vector from the vertex is shorter than `1e-9` is skipped (treated as inside);
otherwise it passes iff its angle does not exceed the half-angle. -/
def pointOk (V d : Vec3) (coneHalfAngle : ℝ) (p : Vec3) : Bool :=
  if Vec3.norm (p - V) < 1e-9 then true
  else decide (¬ pointBeta V d p > coneHalfAngle)

/-- The candidate points `points_to_check` built by `check_circle_in_cone`:
one representative circle point in the colinear branch, otherwise the two
intersections of the circle with the plane spanned by vertex, center and axis. -/
def pointsToCheck (coneVertex coneAxisUnitVec : Vec3) (circleCenter : Vec3)
    (circleRadius : ℝ) (circleNormal : Vec3) : List Vec3 :=
  let C := circleCenter
  let V := coneVertex
  let d := coneAxisUnitVec
  let r := circleRadius
  let nc := circleNormal
  let vecVC := C - V
  let vecVCNorm := Vec3.norm vecVC
  if Vec3.norm (Vec3.cross vecVC d) < 1e-6 * vecVCNorm then
    let perpVec : Vec3 := if |nc.x| < 0.9 then ⟨1, 0, 0⟩ else ⟨0, 1, 0⟩
    let orthoVec := Vec3.cross nc perpVec
    let extremePoint := C + r • ((Vec3.norm orthoVec)⁻¹ • orthoVec)
    [extremePoint]
  else
    let planeNormal := Vec3.cross vecVC d
    let intersectionDir := Vec3.cross planeNormal nc
    let unitIntersectionDir := (Vec3.norm intersectionDir)⁻¹ • intersectionDir
    let p1 := C + r • unitIntersectionDir
    let p2 := C - r • unitIntersectionDir
    [p1, p2]

/-- `check_circle_in_cone` from `geometry.py`: the analytic test that a full
circle lies inside a cone, checking only the candidate extreme points. -/
def check_circle_in_cone (coneVertex coneAxisUnitVec : Vec3) (coneHalfAngle : ℝ)
    (circleCenter : Vec3) (circleRadius : ℝ) (circleNormal : Vec3) : Bool :=
  (pointsToCheck coneVertex coneAxisUnitVec circleCenter circleRadius
      circleNormal).all (pointOk coneVertex coneAxisUnitVec coneHalfAngle)

/-- `TargetCylinder` from `core_objects.py` (its constructor stores radius,
height and bottom center, and derives the top center). -/
structure TargetCylinder where
  radius : ℝ
  height : ℝ
  bottom_center : Vec3

/-- The derived `top_center` attribute of `TargetCylinder`. -/
def TargetCylinder.top_center (c : TargetCylinder) : Vec3 :=
  c.bottom_center + ⟨0, 0, c.height⟩

/-- `check_full_obscuration` from `geometry.py`: build the shadow cone of the
cloud and require both rim circles of the cylinder to pass the circle test. -/
def check_full_obscuration (missilePos cloudCenter : Vec3)
    (targetCylinder : TargetCylinder) : Bool :=
  let coneVertex := missilePos
  let distToCloud := Vec3.norm (cloudCenter - coneVertex)
  if distToCloud ≤ CLOUD_RADIUS then true
  else
    let coneAxisUnitVec := distToCloud⁻¹ • (cloudCenter - coneVertex)
    let coneHalfAngle := Real.arcsin (CLOUD_RADIUS / distToCloud)
    let bottomOk := check_circle_in_cone coneVertex coneAxisUnitVec coneHalfAngle
      targetCylinder.bottom_center targetCylinder.radius ⟨0, 0, -1⟩
    if ¬ bottomOk then false
    else
      let topOk := check_circle_in_cone coneVertex coneAxisUnitVec coneHalfAngle
        targetCylinder.top_center targetCylinder.radius ⟨0, 0, 1⟩
      if ¬ topOk then false
      else true

end Geometry

noncomputable section CoreObjects

/-- Physical constant `G` from `config.py`. -/
def G : ℝ := 9.8

/-- `Missile` from `core_objects.py`: start position, scalar speed and the unit
vector toward its fixed aim point, all computed at construction. -/
structure Missile where
  start_pos : Vec3
  speed : ℝ
  unit_vec : Vec3

/-- `Missile.get_position`: straight-line constant-speed motion. -/
def Missile.get_position (m : Missile) (t : ℝ) : Vec3 :=
  m.start_pos + (m.speed * t) • m.unit_vec

/-- `SmokeCloud` state: detonation position and the activity window, which the
constructor fixes as `[detonate_time, detonate_time + CLOUD_DURATION)`. -/
structure SmokeCloud where
  detonate_pos : Vec3
  start_time : ℝ
  end_time : ℝ

/-- The `SmokeCloud` constructor: `end_time` is derived from `detonate_time`
and the fixed lifetime constant, once, at construction. -/
def SmokeCloud.mk' (detonatePos : Vec3) (detonateTime : ℝ) : SmokeCloud :=
  ⟨detonatePos, detonateTime, detonateTime + CLOUD_DURATION⟩

/-- `SmokeCloud.get_center`: the sinking center while the cloud is active,
absent (`none`) outside the half-open activity window. -/
def SmokeCloud.get_center (c : SmokeCloud) (t : ℝ) : Option Vec3 :=
  if c.start_time ≤ t ∧ t < c.end_time then
    some (c.detonate_pos - ⟨0, 0, CLOUD_SINK_SPEED * (t - c.start_time)⟩)
  else none

/-- `SmokeCloud.check_obscuration_at_time`: `False` when the cloud has no
center, otherwise the single-cloud full-obscuration test. -/
def SmokeCloud.check_obscuration_at_time (c : SmokeCloud) (t : ℝ) (m : Missile)
    (target : TargetCylinder) : Bool :=
  let missilePos := m.get_position t
  match c.get_center t with
  | none => false
  | some cloudCenter => check_full_obscuration missilePos cloudCenter target

/-- A 6-dimensional state `[position, velocity]` as used by the grenade ODE. -/
def Vec6 : Type := Vec3 × Vec3

/-- `grenade_motion_ode` from `core_objects.py`: gravity plus quadratic drag.
The drag branch divides by `mass`; with Python floats a zero mass raises
`ZeroDivisionError`, embedded as an error result. -/
def grenade_motion_ode (_t : ℝ) (y : Vec6) (mass dragFactor : ℝ) :
    Except PyError Vec6 :=
  let velocity := y.2
  let gravityAccel : Vec3 := ⟨0, 0, -G⟩
  let speed := Vec3.norm velocity
  if speed > 1e-6 then
    if mass = 0 then .error .zeroDivisionError
    else
      let dragAccel := (-(dragFactor / mass) * speed) • velocity
      .ok (velocity, gravityAccel + dragAccel)
  else
    .ok (velocity, gravityAccel + (⟨0, 0, 0⟩ : Vec3))

/-- Modelled from the spec: `scipy.integrate.solve_ivp` is not part of the
sources. Per its documented contract the right-hand side is first evaluated at
the initial state (its exception propagating out of `solve_ivp`), and on
non-convergence the integration stops early, so the requested evaluation time
is not reached and `solution.y` has zero columns. The columns actually
produced are abstracted as the parameter `solYCols`. -/
def solve_ivp_then_extract (odeAtInitial : Except PyError Vec6)
    (solYCols : List Vec6) : Except PyError Vec3 :=
  match odeAtInitial with
  | .error e => .error e
  | .ok _ =>
    -- `final_state = solution.y[:, -1]` : indexing an empty axis raises.
    match solYCols.getLast? with
    | none => .error .indexError
    | some finalState => .ok finalState.1

/-- `Grenade._solve_trajectory_scipy`: the code extracts `solution.y[:, -1]`
without inspecting the solver's status flag. -/
def Grenade.solve_trajectory_scipy (mass dragFactor : ℝ)
    (deployPos deployVel : Vec3) (solYCols : List Vec6) : Except PyError Vec3 :=
  solve_ivp_then_extract (grenade_motion_ode 0 (deployPos, deployVel) mass dragFactor)
    solYCols

/-- The `Grenade` constructor result: either the cached detonation data or the
exception that surfaced during trajectory integration. -/
def Grenade.construct (mass dragFactor : ℝ) (deployPos deployVel : Vec3)
    (deployTime fuseTime : ℝ) (solYCols : List Vec6) :
    Except PyError (Vec3 × ℝ) :=
  match Grenade.solve_trajectory_scipy mass dragFactor deployPos deployVel solYCols with
  | .error e => .error e
  | .ok detonatePos => .ok (detonatePos, deployTime + fuseTime)

end CoreObjects

section Codec

/-- Python `int(...)` on a rational: truncation toward zero. -/
def pyIntTrunc (q : ℚ) : ℤ := if 0 ≤ q then ⌊q⌋ else -⌊-q⌋

/-- Python element access `l[i]` for a nonnegative index: `IndexError` when out
of range. -/
def pyGet (l : List ℚ) (i : ℕ) : Except PyError ℚ :=
  match l.get? i with
  | some v => .ok v
  | none => .error .indexError

/-- Python list indexing with a possibly negative index (negative indices count
from the end), as used for `missile_ids[...]`. -/
def pyIdx (l : List String) (i : ℤ) : Except PyError String :=
  if h : 0 ≤ (if i < 0 then i + l.length else i) ∧
      (if i < 0 then i + l.length else i).toNat < l.length then
    .ok (l.get ⟨(if i < 0 then i + l.length else i).toNat, h.2⟩)
  else .error .indexError

/-- The unpacking `speed, angle = dv[i : i + 2]`: a slice of length other than
two raises `ValueError`; reading two consecutive entries is equivalent. -/
def pyUnpack2 (l : List ℚ) (i : ℕ) : Except PyError (ℚ × ℚ) :=
  match l.get? i, l.get? (i + 1) with
  | some a, some b => .ok (a, b)
  | _, _ => .error .valueError

/-- One decoded munition record of the problem-five strategy. -/
structure GrenadeStrat where
  t_deploy : ℚ
  t_fuse : ℚ
  target_missile : String
deriving DecidableEq, Repr

/-- One decoded per-carrier strategy record. -/
structure UavStrat where
  speed : ℚ
  angle : ℚ
  grenades : List GrenadeStrat
deriving DecidableEq, Repr

/-- The scenario schema consumed by `GlobalOptimizer._parse_decision_variables`:
the sorted carrier identifiers with their munition counts, and the sorted
missile identifiers. -/
structure P5Config where
  uavPairs : List (String × ℕ)
  missile_ids : List String

/-- The inner loop of `_parse_decision_variables`: decode `n` munitions
starting at `dvIndex`, threading `last_td` (deploy times after the first are
increments over the previous one) and the `i == 0` flag. -/
def parseGrenades (cfg : P5Config) (dv : List ℚ) :
    ℕ → ℕ → ℚ → Bool → Except PyError (List GrenadeStrat × ℕ)
  | 0, dvIndex, _, _ => .ok ([], dvIndex)
  | n + 1, dvIndex, lastTd, isFirst =>
    match pyGet dv dvIndex with
    | .error e => .error e
    | .ok v0 =>
      match pyGet dv (dvIndex + 1) with
      | .error e => .error e
      | .ok tF =>
        match pyGet dv (dvIndex + 2) with
        | .error e => .error e
        | .ok targetSelector =>
          match pyIdx cfg.missile_ids
              (min (pyIntTrunc (targetSelector * cfg.missile_ids.length))
                ((cfg.missile_ids.length : ℤ) - 1)) with
          | .error e => .error e
          | .ok targetMissileId =>
            match parseGrenades cfg dv n (dvIndex + 3)
                (if isFirst then v0 else lastTd + v0) false with
            | .error e => .error e
            | .ok (rest, finalIndex) =>
              .ok (⟨if isFirst then v0 else lastTd + v0, tF, targetMissileId⟩ ::
                rest, finalIndex)

/-- The outer loop of `_parse_decision_variables`: per carrier, two scalars
(speed, heading) then the munition block. -/
def parseUavs (cfg : P5Config) (dv : List ℚ) :
    List (String × ℕ) → ℕ → Except PyError (List (String × UavStrat))
  | [], _ => .ok []
  | (uavId, numGrenades) :: rest, dvIndex =>
    match pyUnpack2 dv dvIndex with
    | .error e => .error e
    | .ok (speed, angle) =>
      match parseGrenades cfg dv numGrenades (dvIndex + 2) 0 true with
      | .error e => .error e
      | .ok (gs, idxAfter) =>
        match parseUavs cfg dv rest idxAfter with
        | .error e => .error e
        | .ok restStrat => .ok ((uavId, ⟨speed, angle, gs⟩) :: restStrat)

/-- `GlobalOptimizer._parse_decision_variables` from the problem-five
`optimizer.py`. -/
def parse_decision_variables (cfg : P5Config) (dv : List ℚ) :
    Except PyError (List (String × UavStrat)) :=
  parseUavs cfg dv cfg.uavPairs 0

/-- The decision-vector length implied by the schema: two scalars per carrier
plus three per assigned munition. -/
def schemaLength (cfg : P5Config) : ℕ :=
  (cfg.uavPairs.map (fun p => 2 + 3 * p.2)).foldr (· + ·) 0

/-- Is this result a decode rejection, i.e. one of the exception types caught
by `objective_function`'s `except (ValueError, IndexError)` clause? -/
def isDecodeErr {α : Type} : Except PyError α → Bool
  | .error .valueError => true
  | .error .indexError => true
  | _ => false

/-- `GlobalOptimizer.objective_function`, up to the decode step: a decode
rejection becomes the worst-case finite score `1e9`; the remainder of the
evaluation (cloud construction and sampling) is abstracted as `rest`. -/
def objective_function (cfg : P5Config) (rest : List (String × UavStrat) → ℚ)
    (dv : List ℚ) : Except PyError ℚ :=
  match parse_decision_variables cfg dv with
  | .error .valueError => .ok 1e9
  | .error .indexError => .ok 1e9
  | .error e => .error e
  | .ok strategy => .ok (rest strategy)

end Codec

section AdaptiveDE

/-- The external random stream consumed by `adaptive_de.py`: a queue of
rational draws (for the continuous distributions, exhausting to `0`) and a
queue of naturals (for the discrete choices). All of numpy's samplers are
abstracted through it: a normal draw `normal(m, s)` is `m + s * q`, a uniform
draw in `[lo, hi)` is `lo + (hi - lo) * fract q`, and a choice among `k`
alternatives is `n % k`. -/
structure Oracle where
  qs : List ℚ
  ns : List ℕ

/-- Pop the next rational draw (default `0` when exhausted). -/
def Oracle.nextQ (o : Oracle) : ℚ × Oracle := (o.qs.headD 0, ⟨o.qs.tail, o.ns⟩)

/-- Pop the next natural draw (default `0` when exhausted). -/
def Oracle.nextN (o : Oracle) : ℕ × Oracle := (o.ns.headD 0, ⟨o.qs, o.ns.tail⟩)

/-- The fractional part of a rational, in `[0, 1)`. -/
def fract (q : ℚ) : ℚ := q - ⌊q⌋

/-- `np.clip` on rationals. -/
def npclipQ (v lo hi : ℚ) : ℚ := max lo (min v hi)

/-- Keep the last `n` entries of a list (the contents of a
`collections.deque` with `maxlen = n` after the pushes producing `l`). -/
def lastN (n : ℕ) (l : List ℚ) : List ℚ := l.drop (l.length - n)

/-- Appending to a `deque(maxlen := m)`: the oldest entries beyond the
capacity are discarded. -/
def dequeAppend (m : ℕ) (l : List ℚ) (a : ℚ) : List ℚ := lastN m (l ++ [a])

/-- `AdaptiveParameters` from `adaptive_de.py`. -/
structure AdaptiveParameters where
  memory_size : ℕ
  successful_F : List ℚ
  successful_CR : List ℚ
  mean_F : ℚ
  mean_CR : ℚ
  std_F : ℚ
  std_CR : ℚ
deriving DecidableEq, Repr

/-- `AdaptiveParameters.__init__` with the default `memory_size = 100`. -/
def AdaptiveParameters.init : AdaptiveParameters :=
  ⟨100, [], [], 1/2, 1/2, 1/10, 1/10⟩

/-- `AdaptiveParameters.add_success`. -/
def AdaptiveParameters.add_success (ap : AdaptiveParameters) (F CR : ℚ) :
    AdaptiveParameters :=
  { ap with
    successful_F := dequeAppend ap.memory_size ap.successful_F F
    successful_CR := dequeAppend ap.memory_size ap.successful_CR CR }

/-- `AdaptiveParameters.update_parameters`: when the success memory is
nonempty, recompute `mean_F` as the Lehmer mean and `mean_CR` as the
arithmetic mean of the remembered values, then clear the memory; otherwise do
nothing. -/
def AdaptiveParameters.update_parameters (ap : AdaptiveParameters) :
    AdaptiveParameters :=
  if 0 < ap.successful_F.length then
    let fVals := ap.successful_F
    let meanF := if 0 < fVals.sum then (fVals.map (fun x => x ^ 2)).sum / fVals.sum
      else 1/2
    let meanCR := ap.successful_CR.sum / (ap.successful_CR.length : ℚ)
    { ap with mean_F := meanF, mean_CR := meanCR,
              successful_F := [], successful_CR := [] }
  else ap

/-- `AdaptiveParameters.generate_parameters`: `F` is a normal draw clipped to
`[0, 2]`, redrawn uniformly from `[0.1, 0.9)` when nonpositive; `CR` is a
normal draw clipped to `[0, 1]`. -/
def AdaptiveParameters.generate_parameters (ap : AdaptiveParameters)
    (o : Oracle) : (ℚ × ℚ) × Oracle :=
  let (q1, o1) := o.nextQ
  let (q2, o2) := o1.nextQ
  let F0 := npclipQ (ap.mean_F + ap.std_F * q1) 0 2
  let CR := npclipQ (ap.mean_CR + ap.std_CR * q2) 0 1
  if F0 ≤ 0 then
    let (q3, o3) := o2.nextQ
    ((1/10 + (9/10 - 1/10) * fract q3, CR), o3)
  else ((F0, CR), o2)

/-- The `MutationStrategy` enumeration. -/
inductive MutationStrategy where
  | deRand1
  | deBest1
  | deCurrentToBest1
  | deRand2
  | deBest2
deriving DecidableEq, Repr

/-- The `BoundaryHandling` enumeration. -/
inductive BoundaryHandling where
  | clipB
  | reflectB
  | reinitializeB
  | midpointB
deriving DecidableEq, Repr

/-- `StrategySelector` state: per-strategy decayed success rates, use counts,
and the last-ten success window, kept in lists aligned with `strategies`. -/
structure StrategySelector where
  strategies : List MutationStrategy
  success_rates : List ℚ
  total_uses : List ℕ
  recent_successes : List (List ℚ)
deriving DecidableEq, Repr

/-- `StrategySelector.__init__`. -/
def StrategySelector.init (strats : List MutationStrategy) : StrategySelector :=
  ⟨strats, strats.map (fun _ => 1), strats.map (fun _ => 1), strats.map (fun _ => [])⟩

/-- `StrategySelector.select_strategy`: the weighted random choice over the
available strategies is abstracted into the oracle's pick. -/
def StrategySelector.select_strategy (sel : StrategySelector) (o : Oracle) :
    MutationStrategy × Oracle :=
  let (k, o1) := o.nextN
  (sel.strategies.getD (k % sel.strategies.length) .deRand1, o1)

/-- `StrategySelector.update_strategy_performance`: bump the use count, push
the outcome into the ten-slot recent window, and update the overall success
rate with decay factor `0.95`. -/
def StrategySelector.update_strategy_performance (sel : StrategySelector)
    (s : MutationStrategy) (success : Bool) : StrategySelector :=
  let idx := sel.strategies.indexOf s
  { sel with
    total_uses := sel.total_uses.set idx (sel.total_uses.getD idx 1 + 1)
    recent_successes := sel.recent_successes.set idx
      (dequeAppend 10 (sel.recent_successes.getD idx [])
        (if success then 1 else 0))
    success_rates := sel.success_rates.set idx
      (95/100 * sel.success_rates.getD idx 1 +
        (1 - 95/100) * (if success then 1 else 0)) }

/-- The constructor arguments of `AdaptiveDifferentialEvolution`. -/
structure DEParams where
  objective : List ℚ → ℚ
  bounds : List (ℚ × ℚ)
  popsizeArg : Option ℕ
  maxiter : ℕ
  tol : ℚ
  boundary_handling : BoundaryHandling
  use_archive : Bool
  archive_size : ℕ
  adaptive_popsize : Bool

/-- `self.dim = len(bounds)`. -/
def DEParams.dim (p : DEParams) : ℕ := p.bounds.length

/-- `self.popsize = popsize if popsize is not None else max(30, 4 * dim)`. -/
def DEParams.popsize (p : DEParams) : ℕ :=
  match p.popsizeArg with
  | some n => n
  | none => max 30 (4 * p.dim)

/-- The mutable optimizer state of `AdaptiveDifferentialEvolution`. -/
structure DEState where
  population : List (List ℚ)
  fitness : List ℚ
  best_idx : ℕ
  best_fitness : ℚ
  generation : ℕ
  convergence_history : List ℚ
  adaptive_params : AdaptiveParameters
  strategy_selector : StrategySelector
  archive : List (List ℚ)

/-- The minimum of a nonempty rational list (`0` for the empty list), the
value `np.min` would return. -/
def listMin : List ℚ → ℚ
  | [] => 0
  | x :: xs => xs.foldl min x

/-- `np.argmin`: the first index attaining the minimum. -/
def argminIdx (l : List ℚ) : ℕ := l.indexOf (listMin l)

/-- Draw one individual: `np.random.uniform(lower, upper)` per dimension. -/
def drawRow : List (ℚ × ℚ) → Oracle → List ℚ × Oracle
  | [], o => ([], o)
  | (lo, hi) :: rest, o =>
    let (q, o1) := o.nextQ
    let (tl, o2) := drawRow rest o1
    ((lo + (hi - lo) * fract q) :: tl, o2)

/-- Draw the whole initial population, row by row. -/
def drawPopulation (bounds : List (ℚ × ℚ)) : ℕ → Oracle → List (List ℚ) × Oracle
  | 0, o => ([], o)
  | n + 1, o =>
    let (row, o1) := drawRow bounds o
    let (rows, o2) := drawPopulation bounds n o1
    (row :: rows, o2)

/-- `AdaptiveDifferentialEvolution.initialize_population`: uniform draws,
initial fitness evaluation, and the initial best bookkeeping. -/
def initialize_population (p : DEParams) (o : Oracle) : DEState × Oracle :=
  let (pop, o1) := drawPopulation p.bounds p.popsize o
  let fitness := pop.map p.objective
  let bestIdx := argminIdx fitness
  (⟨pop, fitness, bestIdx, fitness.getD bestIdx 0, 0, [],
    AdaptiveParameters.init,
    StrategySelector.init [.deRand1, .deBest1, .deCurrentToBest1, .deRand2],
    []⟩, o1)

/-- Vector arithmetic on decision vectors (`numpy` elementwise operations). -/
def vecAddQ (a b : List ℚ) : List ℚ := List.zipWith (· + ·) a b

/-- Elementwise subtraction. -/
def vecSubQ (a b : List ℚ) : List ℚ := List.zipWith (· - ·) a b

/-- Scalar multiplication. -/
def vecScaleQ (s : ℚ) (a : List ℚ) : List ℚ := a.map (s * ·)

/-- Pick a random member of the candidate index list (the oracle stands for
`np.random.choice`). -/
def pickCandidate (cands : List ℕ) (o : Oracle) : ℕ × Oracle :=
  let (k, o1) := o.nextN
  (cands.getD (k % cands.length) 0, o1)

/-- `AdaptiveDifferentialEvolution.mutate`: the standard DE formulas, with
donor indices drawn from the candidate lists that exclude the target (and the
best where the formula requires it). `DE_BEST_2` falls into the code's
default `rand/1` branch. -/
def mutate (st : DEState) (targetIdx : ℕ) (strategy : MutationStrategy)
    (F : ℚ) (o : Oracle) : List ℚ × Oracle :=
  let popSize := st.population.length
  let pop := st.population
  match strategy with
  | .deBest1 =>
    let cands := (List.range popSize).filter
      (fun i => i ≠ targetIdx ∧ i ≠ st.best_idx)
    let (r1, o1) := pickCandidate cands o
    let (r2, o2) := pickCandidate cands o1
    (vecAddQ (pop.getD st.best_idx [])
      (vecScaleQ F (vecSubQ (pop.getD r1 []) (pop.getD r2 []))), o2)
  | .deCurrentToBest1 =>
    let cands := (List.range popSize).filter
      (fun i => i ≠ targetIdx ∧ i ≠ st.best_idx)
    let (r1, o1) := pickCandidate cands o
    let (r2, o2) := pickCandidate cands o1
    (vecAddQ (vecAddQ (pop.getD targetIdx [])
        (vecScaleQ F (vecSubQ (pop.getD st.best_idx []) (pop.getD targetIdx []))))
      (vecScaleQ F (vecSubQ (pop.getD r1 []) (pop.getD r2 []))), o2)
  | .deRand2 =>
    let cands := (List.range popSize).filter (fun i => i ≠ targetIdx)
    let (r1, o1) := pickCandidate cands o
    let (r2, o2) := pickCandidate cands o1
    let (r3, o3) := pickCandidate cands o2
    let (r4, o4) := pickCandidate cands o3
    let (r5, o5) := pickCandidate cands o4
    (vecAddQ (vecAddQ (pop.getD r1 [])
        (vecScaleQ F (vecSubQ (pop.getD r2 []) (pop.getD r3 []))))
      (vecScaleQ F (vecSubQ (pop.getD r4 []) (pop.getD r5 []))), o5)
  | _ =>
    let cands := (List.range popSize).filter (fun i => i ≠ targetIdx)
    let (r1, o1) := pickCandidate cands o
    let (r2, o2) := pickCandidate cands o1
    let (r3, o3) := pickCandidate cands o2
    (vecAddQ (pop.getD r1 [])
      (vecScaleQ F (vecSubQ (pop.getD r2 []) (pop.getD r3 []))), o3)

/-- The dimension loop of `AdaptiveDifferentialEvolution.crossover`: starting
from a copy of the target, take the mutant component when the uniform draw
beats `CR` or the dimension is the forced one. -/
def crossoverLoop (mutant : List ℚ) (CR : ℚ) (rdim : ℕ) :
    List ℚ → ℕ → Oracle → List ℚ × Oracle
  | [], _, o => ([], o)
  | t :: ts, i, o =>
    let (q, o1) := o.nextQ
    let v := if fract q < CR ∨ i = rdim then mutant.getD i 0 else t
    let (rest, o2) := crossoverLoop mutant CR rdim ts (i + 1) o1
    (v :: rest, o2)

/-- `AdaptiveDifferentialEvolution.crossover`: binomial crossover with one
uniformly chosen dimension forced to come from the mutant. -/
def crossover (dim : ℕ) (target mutant : List ℚ) (CR : ℚ) (o : Oracle) :
    List ℚ × Oracle :=
  let (k, o1) := o.nextN
  let randomDim := if dim = 0 then 0 else k % dim
  crossoverLoop mutant CR randomDim target 0 o1

/-- The `REINITIALIZE` branch of boundary handling: redraw each violating
dimension uniformly. -/
def reinitLoop : List (ℚ × (ℚ × ℚ)) → Oracle → List ℚ × Oracle
  | [], o => ([], o)
  | (x, (lo, hi)) :: rest, o =>
    if x < lo ∨ hi < x then
      let (q, o1) := o.nextQ
      let (tl, o2) := reinitLoop rest o1
      ((lo + (hi - lo) * fract q) :: tl, o2)
    else
      let (tl, o2) := reinitLoop rest o
      (x :: tl, o2)

/-- `AdaptiveDifferentialEvolution.handle_boundary`. -/
def handle_boundary (p : DEParams) (ind : List ℚ) (o : Oracle) :
    List ℚ × Oracle :=
  match p.boundary_handling with
  | .clipB =>
    (List.zipWith (fun x (b : ℚ × ℚ) => npclipQ x b.1 b.2) ind p.bounds, o)
  | .reflectB =>
    (List.zipWith (fun x (b : ℚ × ℚ) =>
      if x < b.1 then min (b.1 + (b.1 - x)) b.2
      else if b.2 < x then max (b.2 - (x - b.2)) b.1
      else x) ind p.bounds, o)
  | .reinitializeB => reinitLoop (ind.zip p.bounds) o
  | .midpointB =>
    (List.zipWith (fun x (b : ℚ × ℚ) =>
      if x < b.1 ∨ b.2 < x then (b.1 + b.2) / 2 else x) ind p.bounds, o)

/-- The per-generation success records gathered by the individual loop. -/
structure GenRecords where
  successful_F : List ℚ
  successful_CR : List ℚ
  strategies : List (MutationStrategy × Bool)

/-- One iteration of the per-individual loop of `optimize` (steps: adaptive
parameter draw, strategy pick, mutation, boundary handling, crossover,
boundary handling, trial evaluation, selection, archive push, best update). -/
def evolveIndividual (p : DEParams) (st : DEState) (i : ℕ) (recs : GenRecords)
    (o : Oracle) : DEState × GenRecords × Oracle :=
  let (fcr, o1) := st.adaptive_params.generate_parameters o
  let F := fcr.1
  let CR := fcr.2
  let (strategy, o2) := st.strategy_selector.select_strategy o1
  let (mutant0, o3) := mutate st i strategy F o2
  let (mutant, o4) := handle_boundary p mutant0 o3
  let (trial0, o5) := crossover p.dim (st.population.getD i []) mutant CR o4
  let (trial, o6) := handle_boundary p trial0 o5
  let trialFitness := p.objective trial
  let success : Bool := decide (trialFitness < st.fitness.getD i 0)
  let recs' := { recs with
    successful_F := if success then recs.successful_F ++ [F] else recs.successful_F
    successful_CR := if success then recs.successful_CR ++ [CR] else recs.successful_CR
    strategies := recs.strategies ++ [(strategy, success)] }
  if success then
    let archive' := if p.use_archive then
        (st.archive ++ [st.population.getD i []]).drop
          ((st.archive.length + 1) - p.archive_size)
      else st.archive
    let st' := { st with
      population := st.population.set i trial
      fitness := st.fitness.set i trialFitness
      archive := archive' }
    if trialFitness < st.best_fitness then
      ({ st' with best_idx := i, best_fitness := trialFitness }, recs', o6)
    else (st', recs', o6)
  else (st, recs', o6)

/-- The whole per-individual loop, for `i in range(len(population))`. -/
def evolveAll (p : DEParams) (n : ℕ) : ℕ → DEState × GenRecords × Oracle →
    DEState × GenRecords × Oracle
  | i, sro =>
    if h : i < n then
      have : n - (i + 1) < n - i := by omega
      evolveAll p n (i + 1) (evolveIndividual p sro.1 i sro.2.1 sro.2.2)
    else sro
termination_by i _ => n - i

/-- The ranking relation on (fitness, individual) pairs used when the
population shrinks. -/
def fitnessLe (a b : ℚ × List ℚ) : Prop := a.1 ≤ b.1

instance : DecidableRel fitnessLe := fun a b =>
  inferInstanceAs (Decidable (a.1 ≤ b.1))

instance : IsTotal (ℚ × List ℚ) fitnessLe := ⟨fun a b => le_total a.1 b.1⟩

instance : IsTrans (ℚ × List ℚ) fitnessLe := ⟨fun _ _ _ => le_trans⟩

/-- `AdaptiveDifferentialEvolution.update_population_size` (LSHADE-style
linear shrink, keeping the best-ranked individuals; `np.argsort` leaves the
order of ties unspecified, modelled by insertion sort on fitness). -/
def update_population_size (p : DEParams) (st : DEState) : DEState :=
  if p.adaptive_popsize then
    let minPopsize := max 4 (p.dim / 2)
    let maxPopsize := p.popsize
    let progress : ℚ := (st.generation : ℚ) / (p.maxiter : ℚ)
    let current0 : ℤ :=
      pyIntTrunc ((maxPopsize : ℚ) - progress * ((maxPopsize : ℚ) - (minPopsize : ℚ)))
    let currentPopsize := (max current0 (minPopsize : ℤ)).toNat
    if currentPopsize < st.population.length then
      let sorted := List.insertionSort fitnessLe (st.fitness.zip st.population)
      let kept := sorted.take currentPopsize
      { st with
        population := kept.map Prod.snd
        fitness := kept.map Prod.fst
        best_idx := 0 }
    else st
  else st

/-- The end-of-generation adaptive-parameter update in `optimize`: push every
generation-successful `(F, CR)` pair, then `update_parameters`. -/
def endGenUpdate (ap : AdaptiveParameters) (succPairs : List (ℚ × ℚ)) :
    AdaptiveParameters :=
  (succPairs.foldl (fun a fc => a.add_success fc.1 fc.2) ap).update_parameters

/-- The end-of-generation bookkeeping of `optimize`: adaptive parameters,
strategy-selector statistics, and the convergence-history append. -/
def endOfGeneration (st : DEState) (recs : GenRecords) : DEState :=
  let ap' := endGenUpdate st.adaptive_params
    (recs.successful_F.zip recs.successful_CR)
  let sel' := recs.strategies.foldl
    (fun sel sb => sel.update_strategy_performance sb.1 sb.2) st.strategy_selector
  let st1 := { st with adaptive_params := ap', strategy_selector := sel' }
  { st1 with convergence_history := st1.convergence_history ++ [st1.best_fitness] }

/-- One full generation of `optimize`: set the generation counter, maybe
shrink the population, evolve every individual, then the end-of-generation
bookkeeping. -/
def genStep (p : DEParams) (genIdx : ℕ) (so : DEState × Oracle) :
    DEState × Oracle :=
  let st1 := update_population_size p { so.1 with generation := genIdx }
  let r := evolveAll p st1.population.length 0 (st1, ⟨[], [], []⟩, so.2)
  (endOfGeneration r.1 r.2.1, r.2.2)

/-- The generation loop of `optimize`, breaking once `|best| < tol`. -/
def optimizeLoop (p : DEParams) : ℕ → ℕ → DEState × Oracle → DEState × Oracle
  | 0, _, so => so
  | n + 1, genIdx, so =>
    let so' := genStep p genIdx so
    if |so'.1.best_fitness| < p.tol then so'
    else optimizeLoop p n (genIdx + 1) so'

/-- `AdaptiveDifferentialEvolution.optimize`. -/
def optimize (p : DEParams) (o : Oracle) : DEState × Oracle :=
  optimizeLoop p p.maxiter 0 (initialize_population p o)

end AdaptiveDE

noncomputable section ProblemThreeFour

/-- Physical constant `GRENADE_MASS` from `config.py`. -/
def GRENADE_MASS : ℝ := 5

/-- Physical constant `GRENADE_DRAG_FACTOR` from `config.py`. -/
def GRENADE_DRAG_FACTOR : ℝ := 0.005

/-- Modelled from the spec: `check_collective_obscuration`'s per-point,
per-cloud cone test is not among the sources (only its callers are). Per
§4.2 it is the same angular formula as the single-point test of step 3:
apex at the observer, axis toward the cloud center, half-angle
`asin(radius/distance)`; an observer inside the cloud trivially covers. -/
def check_point_in_cloud_cone (missilePos cloudCenter p : Vec3) : Bool :=
  let dist := Vec3.norm (cloudCenter - missilePos)
  if dist ≤ CLOUD_RADIUS then true
  else
    let axis := dist⁻¹ • (cloudCenter - missilePos)
    let half := Real.arcsin (CLOUD_RADIUS / dist)
    pointOk missilePos axis half p

/-- Modelled from the spec: `check_collective_obscuration` is not among the
sources (only its callers are). Per §4.2, every key point must be covered by
at least one cloud's shadow cone, clouds possibly differing per point. -/
def check_collective_obscuration (missilePos : Vec3) (cloudCenters : List Vec3)
    (keyPoints : List Vec3) : Bool :=
  keyPoints.all fun p =>
    cloudCenters.any fun c => check_point_in_cloud_cone missilePos c p

/-- Modelled from the spec: `TargetCylinder.get_key_points` is not among the
sources (only its callers are). Per §3 it is a deterministic, cached sample
generated once from the target geometry: both circle centers, rim samples at
both heights, and intermediate side-wall samples; its composition depends on
nothing but the cylinder. -/
def TargetCylinder.get_key_points (c : TargetCylinder) : List Vec3 :=
  let dirs := (List.range 8).map fun k => 2 * π * (k : ℝ) / 8
  let rim := fun (center : Vec3) => dirs.map fun θ =>
    center + ⟨c.radius * Real.cos θ, c.radius * Real.sin θ, 0⟩
  let mid := c.bottom_center + ⟨0, 0, c.height / 2⟩
  [c.bottom_center, c.top_center] ++ rim c.bottom_center ++ rim c.top_center ++
    rim mid

/-- The carrier's horizontal velocity from `UAV.set_flight_strategy`. -/
def uavVelocity (speed angle : ℝ) : Vec3 :=
  speed • (⟨Real.cos angle, Real.sin angle, 0⟩ : Vec3)

/-- `UAV.get_position` once the flight strategy has been set. -/
def uavPosition (startPos : Vec3) (speed angle t : ℝ) : Vec3 :=
  startPos + t • uavVelocity speed angle

/-- Dictionary lookup (`UAVS_INITIAL[uav_id]`), raising `KeyError` when the
identifier is absent. -/
def dictLookup (m : List (String × Vec3)) (k : String) : Except PyError Vec3 :=
  match m.find? (fun kv => kv.1 = k) with
  | some kv => .ok kv.2
  | none => .error .keyError

/-- A decoded per-carrier strategy over the reals, as produced by the
problem-specific `_parse_decision_variables` overrides (the base class leaves
decoding abstract). -/
structure UavStratR where
  speed : ℝ
  angle : ℝ
  grenades : List (ℝ × ℝ)

/-- The cached construction-time state of `ObscurationOptimizer`. -/
structure P34State where
  missile : Missile
  target : TargetCylinder
  time_step : ℝ
  target_key_points : List Vec3

/-- The `ObscurationOptimizer` constructor: the key points are generated once
and cached. -/
def P34State.construct (m : Missile) (t : TargetCylinder) : P34State :=
  ⟨m, t, 0.1, t.get_key_points⟩

/-- The cloud-construction loop of `ObscurationOptimizer.objective_function`:
set each carrier's flight strategy, integrate each munition (the solver
output columns come from the deterministic `solver` model), and collect the
resulting smoke clouds. Raises `KeyError` for an unknown carrier. -/
def buildClouds (solver : Vec6 → ℝ → List Vec6)
    (uavsInitial : List (String × Vec3)) :
    List (String × UavStratR) → Except PyError (List SmokeCloud)
  | [] => .ok []
  | (uavId, strat) :: rest => do
    let startPos ← dictLookup uavsInitial uavId
    let vel := uavVelocity strat.speed strat.angle
    let clouds ← strat.grenades.foldlM (fun (acc : List SmokeCloud) g => do
      let deployPos := uavPosition startPos strat.speed strat.angle g.1
      let det ← Grenade.construct GRENADE_MASS GRENADE_DRAG_FACTOR deployPos vel
        g.1 g.2 (solver (deployPos, vel) g.2)
      pure (acc ++ [SmokeCloud.mk' det.1 det.2])) []
    let restClouds ← buildClouds solver uavsInitial rest
    .ok (clouds ++ restClouds)

/-- `np.arange(start, stop, step)` for reals: `ceil((stop-start)/step)`
equally spaced samples from `start`. -/
def npArange (start stop step : ℝ) : List ℝ :=
  (List.range (⌈(stop - start) / step⌉).toNat).map fun k => start + k * step

/-- The sampling loop of `ObscurationOptimizer.objective_function`: at each
grid instant gather the active cloud centers and test collective obscuration,
recording the rounded grid index of each covered instant in a set. Python's
banker's rounding is modelled by `round`; a tie never changes membership of
the covered set for the grid used here. -/
def coveredIndexSet (st : P34State) (clouds : List SmokeCloud)
    (times : List ℝ) : Finset ℤ :=
  times.foldl (fun acc t =>
    let activeCenters := clouds.filterMap fun c => c.get_center t
    if activeCenters.isEmpty then acc
    else if check_collective_obscuration (st.missile.get_position t)
        activeCenters st.target_key_points then
      insert (round (t / st.time_step)) acc
    else acc) ∅

/-- `ObscurationOptimizer.objective_function`: decode (via the abstract
`parse`), build the clouds (a `ValueError`/`KeyError` there is caught and
scored `0`), then accumulate the covered duration over the time grid and
return its negation. -/
def objective_function_p34 (solver : Vec6 → ℝ → List Vec6)
    (uavsInitial : List (String × Vec3))
    (parse : List ℝ → List (String × UavStratR)) (st : P34State)
    (dv : List ℝ) : Except PyError ℝ :=
  let strategies := parse dv
  match buildClouds solver uavsInitial strategies with
  | .error .valueError => .ok 0
  | .error .keyError => .ok 0
  | .error e => .error e
  | .ok clouds =>
    if clouds.isEmpty then .ok 0
    else
      let simStart := (clouds.map SmokeCloud.start_time).foldl min
        ((clouds.map SmokeCloud.start_time).headD 0)
      let simEnd := (clouds.map SmokeCloud.end_time).foldl max
        ((clouds.map SmokeCloud.end_time).headD 0)
      let times := npArange simStart simEnd st.time_step
      let covered := coveredIndexSet st clouds times
      .ok (-(covered.card * st.time_step))

/-- One externally observable call of the objective: the optimizer owns a
random stream, but the evaluation neither consumes it nor mutates the cached
state, both of which are returned unchanged alongside the score. -/
def objectiveCall (solver : Vec6 → ℝ → List Vec6)
    (uavsInitial : List (String × Vec3))
    (parse : List ℝ → List (String × UavStratR))
    (stAndRng : P34State × List ℝ) (dv : List ℝ) :
    Except PyError ℝ × (P34State × List ℝ) :=
  (objective_function_p34 solver uavsInitial parse stAndRng.1 dv, stAndRng)

end ProblemThreeFour

section InvariantDefs

/-- The optimizer-state invariant: the cached fitness array matches the
population, the tracked best index is in range, `best_fitness` is the minimum
of the cached fitness array, and the entry at `best_idx` attains it. -/
def DEInv (st : DEState) : Prop :=
  st.fitness.length = st.population.length ∧
  st.best_idx < st.fitness.length ∧
  st.best_fitness = listMin st.fitness ∧
  st.fitness.getD st.best_idx 0 = st.best_fitness

/-- A small concrete optimizer configuration used to exercise the state
invariant on explicit inputs. -/
def sampleParams : DEParams :=
  ⟨fun l => l.headD 0, [(0, 1)], some 2, 5, 0, .clipB, true, 10, true⟩

/-- An exhausted random stream (every draw defaults). -/
def sampleOracle : Oracle := ⟨[], []⟩

/-- The state produced by initializing the sample configuration. -/
def sampleState : DEState := (initialize_population sampleParams sampleOracle).1

end InvariantDefs

/-! ### Helper lemmas -/

section GeometryLemmas

/-- Evaluate a vector norm whose squared value is a known square. -/
theorem vecnorm_eq {a : Vec3} {c : ℝ} (hc : 0 ≤ c) (h : Vec3.dot a a = c ^ 2) :
    Vec3.norm a = c := by
  rw [Vec3.norm, h, Real.sqrt_sq hc]

/-- Bound a vector norm from above through its square. -/
theorem vecnorm_le {a : Vec3} {c : ℝ} (hc : 0 ≤ c) (h : Vec3.dot a a ≤ c ^ 2) :
    Vec3.norm a ≤ c := by
  rw [Vec3.norm]
  exact Real.sqrt_le_sqrt h |>.trans (le_of_eq (Real.sqrt_sq hc))

/-- Bound a vector norm from below through its square. -/
theorem le_vecnorm {a : Vec3} {c : ℝ} (h : c ^ 2 ≤ Vec3.dot a a) :
    c ≤ Vec3.norm a :=
  Real.le_sqrt_of_sq_le h

/-- Complementary Pythagorean pair: `arcsin s = arccos c` when
`s^2 + c^2 = 1` with both legs nonnegative. -/
theorem arcsin_eq_arccos_of_sq {s c : ℝ} (hs : 0 ≤ s) (hc : 0 ≤ c)
    (hsc : s ^ 2 + c ^ 2 = 1) : Real.arcsin s = Real.arccos c := by
  have h1 : Real.sin (Real.arccos c) = s := by
    rw [Real.sin_arccos]
    have : 1 - c ^ 2 = s ^ 2 := by linarith
    rw [this, Real.sqrt_sq hs]
  have h2 : Real.arccos c ≤ π / 2 := Real.arccos_le_pi_div_two.mpr hc
  have h3 : 0 ≤ Real.arccos c := Real.arccos_nonneg c
  rw [← h1, Real.arcsin_sin (by linarith [Real.pi_pos]) h2]

/-- Clipping is the identity inside the band. -/
theorem npclip_eq_self {x lo hi : ℝ} (h1 : lo ≤ x) (h2 : x ≤ hi) :
    npclip x lo hi = x := by
  rw [npclip, min_eq_left h2, max_eq_right h1]

/-- A clipped cosine at least the complementary leg keeps the arccos within
the arcsin bound (the non-strict passing case of the per-point test). -/
theorem arccos_clip_le_arcsin {x s c : ℝ} (hs : 0 ≤ s) (hc : 0 ≤ c)
    (hsc : s ^ 2 + c ^ 2 = 1) (hcx : c ≤ x) (hx1 : x ≤ 1) :
    Real.arccos (npclip x (-1) 1) ≤ Real.arcsin s := by
  rw [npclip_eq_self (le_trans (by linarith) hcx) hx1,
    arcsin_eq_arccos_of_sq hs hc hsc,
    Real.arccos_eq_pi_div_two_sub_arcsin, Real.arccos_eq_pi_div_two_sub_arcsin]
  have := Real.monotone_arcsin hcx
  linarith

/-- A clipped cosine strictly below the complementary leg pushes the arccos
strictly above the arcsin bound (the violating case of the per-point test). -/
theorem arcsin_lt_arccos_clip {x s c : ℝ} (hs : 0 ≤ s) (hc : 0 ≤ c)
    (hsc : s ^ 2 + c ^ 2 = 1) (hxm : -1 ≤ x) (hxc : x < c) :
    Real.arcsin s < Real.arccos (npclip x (-1) 1) := by
  have hc1 : c ≤ 1 := by nlinarith
  rw [npclip_eq_self hxm (le_trans hxc.le hc1),
    arcsin_eq_arccos_of_sq hs hc hsc]
  exact Real.strictAntiOn_arccos ⟨hxm, le_trans hxc.le hc1⟩
    ⟨by linarith, hc1⟩ hxc

/-- `A / √B ≤ 1` from the squared comparison. -/
theorem ratio_le_one {A B : ℝ} (hB : 0 < B) (h : A ^ 2 ≤ B) :
    A / Real.sqrt B ≤ 1 := by
  rw [div_le_one (Real.sqrt_pos.mpr hB)]
  exact Real.le_sqrt_of_sq_le h

/-- `c ≤ A / √B` from the squared comparison. -/
theorem le_ratio {A B c : ℝ} (hB : 0 < B) (hc : 0 ≤ c) (hA : 0 ≤ A)
    (h : c ^ 2 * B ≤ A ^ 2) : c ≤ A / Real.sqrt B := by
  rw [le_div_iff (Real.sqrt_pos.mpr hB)]
  calc c * Real.sqrt B = Real.sqrt (c ^ 2 * B) := by
        rw [Real.sqrt_mul (sq_nonneg c), Real.sqrt_sq hc]
    _ ≤ Real.sqrt (A ^ 2) := Real.sqrt_le_sqrt h
    _ = A := Real.sqrt_sq hA

/-- `A / √B < c` from the squared comparison. -/
theorem ratio_lt {A B c : ℝ} (hB : 0 < B) (hc : 0 < c) (hA : 0 ≤ A)
    (h : A ^ 2 < c ^ 2 * B) : A / Real.sqrt B < c := by
  rw [div_lt_iff (Real.sqrt_pos.mpr hB)]
  calc A = Real.sqrt (A ^ 2) := (Real.sqrt_sq hA).symm
    _ < Real.sqrt (c ^ 2 * B) := Real.sqrt_lt_sqrt (sq_nonneg A) h
    _ = c * Real.sqrt B := by
        rw [Real.sqrt_mul (sq_nonneg c), Real.sqrt_sq hc.le]

/-- A vector whose squared length clears the threshold squared is not flagged
as numerically near zero. -/
theorem vecnorm_not_lt {a : Vec3} {t : ℝ} (h : t ^ 2 ≤ Vec3.dot a a) :
    ¬ Vec3.norm a < t :=
  not_lt.mpr (le_vecnorm h)

/-- The per-point test passes when the angle does not exceed the half-angle
and the point is not degenerate. -/
theorem pointOk_of_beta_le {V d p : Vec3} {half : ℝ}
    (hnz : ¬ Vec3.norm (p - V) < 1e-9) (h : pointBeta V d p ≤ half) :
    pointOk V d half p = true := by
  rw [pointOk, if_neg hnz]
  simpa [decide_eq_true_eq] using not_lt.mpr h

/-- The general (non-colinear) branch of `check_circle_in_cone` checks
exactly the two in-plane extreme candidate points. -/
theorem check_circle_general {V d : Vec3} {half : ℝ} {C : Vec3} {r : ℝ}
    {nc : Vec3}
    (hb : ¬ Vec3.norm (Vec3.cross (C - V) d) < 1e-6 * Vec3.norm (C - V)) :
    check_circle_in_cone V d half C r nc =
      (pointOk V d half (C + r • ((Vec3.norm (Vec3.cross (Vec3.cross (C - V) d) nc))⁻¹ •
          Vec3.cross (Vec3.cross (C - V) d) nc)) &&
        pointOk V d half (C - r • ((Vec3.norm (Vec3.cross (Vec3.cross (C - V) d) nc))⁻¹ •
          Vec3.cross (Vec3.cross (C - V) d) nc))) := by
  rw [check_circle_in_cone, pointsToCheck]
  simp only [if_neg hb, List.all_cons, List.all_nil, Bool.and_true]

/-- The colinear branch of `check_circle_in_cone` checks exactly the single
representative circle point it constructs. -/
theorem check_circle_colinear {V d : Vec3} {half : ℝ} {C : Vec3} {r : ℝ}
    {nc : Vec3}
    (hb : Vec3.norm (Vec3.cross (C - V) d) < 1e-6 * Vec3.norm (C - V)) :
    check_circle_in_cone V d half C r nc =
      pointOk V d half (C + r • ((Vec3.norm (Vec3.cross nc
          (if |nc.x| < 0.9 then (⟨1, 0, 0⟩ : Vec3) else ⟨0, 1, 0⟩)))⁻¹ •
        Vec3.cross nc (if |nc.x| < 0.9 then (⟨1, 0, 0⟩ : Vec3) else ⟨0, 1, 0⟩))) := by
  rw [check_circle_in_cone, pointsToCheck]
  simp only [if_pos hb, List.all_cons, List.all_nil, Bool.and_true]

end GeometryLemmas

/-! ### The claims -/

/-- C2. `check_circle_in_cone` is total and deterministic on all inputs:
with the vertex exactly at the circle center it returns `true` (the
degenerate candidate points collapse onto the vertex and are skipped as
covered); in the colinear branch it tests exactly one representative circle
point, so the result is a deterministic boolean; and any candidate point
whose vector from the vertex is numerically near zero is treated as covered
without evaluating the angle. -/
theorem C2_circle_in_cone_total_deterministic :
    (∀ (V d : Vec3) (half r : ℝ) (nc : Vec3),
      check_circle_in_cone V d half V r nc = true) ∧
    (∀ (V d : Vec3) (half : ℝ) (C : Vec3) (r : ℝ) (nc : Vec3),
      Vec3.norm (Vec3.cross (C - V) d) < 1e-6 * Vec3.norm (C - V) →
      check_circle_in_cone V d half C r nc =
        pointOk V d half (C + r • ((Vec3.norm (Vec3.cross nc
            (if |nc.x| < 0.9 then (⟨1, 0, 0⟩ : Vec3) else ⟨0, 1, 0⟩)))⁻¹ •
          Vec3.cross nc (if |nc.x| < 0.9 then (⟨1, 0, 0⟩ : Vec3) else ⟨0, 1, 0⟩)))) ∧
    (∀ (V d : Vec3) (half : ℝ) (p : Vec3),
      Vec3.norm (p - V) < 1e-9 → pointOk V d half p = true) := by
  refine ⟨fun V d half r nc => ?_, fun V d half C r nc hb => check_circle_colinear hb,
    fun V d half p hp => by rw [pointOk, if_pos hp]⟩
  have hvv : V - V = (⟨0, 0, 0⟩ : Vec3) := by simp [Vec3.sub_def]
  have hz : Vec3.norm (⟨0, 0, 0⟩ : Vec3) = 0 := by
    simp [Vec3.norm, Vec3.dot]
  have hcr : Vec3.cross (⟨0, 0, 0⟩ : Vec3) d = ⟨0, 0, 0⟩ := by
    simp [Vec3.cross]
  have hb : ¬ Vec3.norm (Vec3.cross (V - V) d) < 1e-6 * Vec3.norm (V - V) := by
    rw [hvv, hcr, hz]
    norm_num
  rw [check_circle_general hb]
  have hpt : ∀ s : ℝ, V + s • ((Vec3.norm (Vec3.cross (Vec3.cross (V - V) d) nc))⁻¹ •
      Vec3.cross (Vec3.cross (V - V) d) nc) = V := by
    intro s
    rw [hvv, hcr]
    simp [Vec3.cross, Vec3.smul_def, Vec3.add_def]
  have hok : pointOk V d half V = true := by
    rw [pointOk, if_pos (by rw [hvv, hz]; norm_num)]
  have hsub : ∀ s : ℝ, V - s • ((Vec3.norm (Vec3.cross (Vec3.cross (V - V) d) nc))⁻¹ •
      Vec3.cross (Vec3.cross (V - V) d) nc) = V := by
    intro s
    rw [hvv, hcr]
    simp [Vec3.cross, Vec3.smul_def, Vec3.sub_def]
  rw [hpt, hsub, hok]
  rfl

/-- C2 witness: the theorem applied at concrete inputs, discharging the
colinearity and near-zero hypotheses there. -/
theorem C2_witness :
    check_circle_in_cone ⟨0, 0, 0⟩ ⟨1, 0, 0⟩ 1 ⟨0, 0, 0⟩ 2 ⟨0, 0, 1⟩ = true ∧
    (Vec3.norm (Vec3.cross ((⟨1, 0, 0⟩ : Vec3) - ⟨0, 0, 0⟩) ⟨1, 0, 0⟩) <
        1e-6 * Vec3.norm ((⟨1, 0, 0⟩ : Vec3) - ⟨0, 0, 0⟩) ∧
      check_circle_in_cone ⟨0, 0, 0⟩ ⟨1, 0, 0⟩ 1 ⟨1, 0, 0⟩ 1 ⟨0, 0, 1⟩ =
        pointOk ⟨0, 0, 0⟩ ⟨1, 0, 0⟩ 1 ((⟨1, 0, 0⟩ : Vec3) + (1 : ℝ) •
          ((Vec3.norm (Vec3.cross (⟨0, 0, 1⟩ : Vec3)
              (if |(⟨0, 0, 1⟩ : Vec3).x| < 0.9 then (⟨1, 0, 0⟩ : Vec3) else ⟨0, 1, 0⟩)))⁻¹ •
            Vec3.cross (⟨0, 0, 1⟩ : Vec3)
              (if |(⟨0, 0, 1⟩ : Vec3).x| < 0.9 then (⟨1, 0, 0⟩ : Vec3) else ⟨0, 1, 0⟩)))) ∧
    (Vec3.norm ((⟨0, 0, 0⟩ : Vec3) - ⟨0, 0, 0⟩) < 1e-9 ∧
      pointOk ⟨0, 0, 0⟩ ⟨0, 1, 0⟩ 0 ⟨0, 0, 0⟩ = true) := by
  have hz : Vec3.norm ((⟨0, 0, 0⟩ : Vec3) - ⟨0, 0, 0⟩) < 1e-9 := by
    have : ((⟨0, 0, 0⟩ : Vec3) - ⟨0, 0, 0⟩) = (⟨0, 0, 0⟩ : Vec3) := by
      simp [Vec3.sub_def]
    rw [this]
    simp [Vec3.norm, Vec3.dot]
    norm_num
  have hcol : Vec3.norm (Vec3.cross ((⟨1, 0, 0⟩ : Vec3) - ⟨0, 0, 0⟩) ⟨1, 0, 0⟩) <
      1e-6 * Vec3.norm ((⟨1, 0, 0⟩ : Vec3) - ⟨0, 0, 0⟩) := by
    have h1 : ((⟨1, 0, 0⟩ : Vec3) - ⟨0, 0, 0⟩) = (⟨1, 0, 0⟩ : Vec3) := by
      simp [Vec3.sub_def]
    rw [h1]
    have h2 : Vec3.cross (⟨1, 0, 0⟩ : Vec3) ⟨1, 0, 0⟩ = ⟨0, 0, 0⟩ := by
      simp [Vec3.cross]
    rw [h2]
    have h3 : Vec3.norm (⟨0, 0, 0⟩ : Vec3) = 0 := by simp [Vec3.norm, Vec3.dot]
    have h4 : Vec3.norm (⟨1, 0, 0⟩ : Vec3) = 1 := by
      simp [Vec3.norm, Vec3.dot]
    rw [h3, h4]
    norm_num
  exact ⟨C2_circle_in_cone_total_deterministic.1 _ _ _ _ _,
    ⟨hcol, C2_circle_in_cone_total_deterministic.2.1 _ _ _ _ _ _ hcol⟩,
    hz, C2_circle_in_cone_total_deterministic.2.2 _ _ _ _ hz⟩

/-- C4. `SmokeCloud.get_center` returns the sinking center exactly on the
half-open activity window fixed at construction, `none` outside it, and
`check_obscuration_at_time` is `false` whenever the center is absent. -/
theorem C4_cloud_activity_window :
    (∀ (p : Vec3) (t0 t : ℝ), t0 ≤ t ∧ t < t0 + CLOUD_DURATION →
      (SmokeCloud.mk' p t0).get_center t =
        some (p - ⟨0, 0, CLOUD_SINK_SPEED * (t - t0)⟩)) ∧
    (∀ (p : Vec3) (t0 t : ℝ), ¬(t0 ≤ t ∧ t < t0 + CLOUD_DURATION) →
      (SmokeCloud.mk' p t0).get_center t = none) ∧
    (∀ (p : Vec3) (t0 : ℝ), (SmokeCloud.mk' p t0).start_time = t0 ∧
      (SmokeCloud.mk' p t0).end_time = t0 + CLOUD_DURATION) ∧
    (∀ (c : SmokeCloud) (t : ℝ) (m : Missile) (tc : TargetCylinder),
      c.get_center t = none → c.check_obscuration_at_time t m tc = false) := by
  refine ⟨fun p t0 t h => ?_, fun p t0 t h => ?_, fun p t0 => ⟨rfl, rfl⟩,
    fun c t m tc h => ?_⟩
  · rw [SmokeCloud.get_center]
    simp only [SmokeCloud.mk']
    rw [if_pos h]
  · rw [SmokeCloud.get_center]
    simp only [SmokeCloud.mk']
    rw [if_neg h]
  · rw [SmokeCloud.check_obscuration_at_time, h]

/-- C4 witness: the theorem applied inside and outside a concrete window. -/
theorem C4_witness :
    ((0 : ℝ) ≤ 5 ∧ (5 : ℝ) < 0 + CLOUD_DURATION) ∧
    (SmokeCloud.mk' ⟨0, 0, 0⟩ 0).get_center 5 =
      some ((⟨0, 0, 0⟩ : Vec3) - ⟨0, 0, CLOUD_SINK_SPEED * (5 - 0)⟩) ∧
    ¬((0 : ℝ) ≤ 30 ∧ (30 : ℝ) < 0 + CLOUD_DURATION) ∧
    (SmokeCloud.mk' ⟨0, 0, 0⟩ 0).get_center 30 = none ∧
    (SmokeCloud.mk' ⟨0, 0, 0⟩ 0).check_obscuration_at_time 30
      ⟨⟨0, 0, 0⟩, 1, ⟨1, 0, 0⟩⟩ ⟨7, 10, ⟨0, 200, 0⟩⟩ = false := by
  have h1 : (0 : ℝ) ≤ 5 ∧ (5 : ℝ) < 0 + CLOUD_DURATION := by
    rw [CLOUD_DURATION]; norm_num
  have h2 : ¬((0 : ℝ) ≤ 30 ∧ (30 : ℝ) < 0 + CLOUD_DURATION) := by
    rw [CLOUD_DURATION]; norm_num
  have h3 := C4_cloud_activity_window.2.1 ⟨0, 0, 0⟩ 0 30 h2
  exact ⟨h1, C4_cloud_activity_window.1 ⟨0, 0, 0⟩ 0 5 h1, h2, h3,
    C4_cloud_activity_window.2.2.2 _ 30 _ _ h3⟩

/-- C5. If the trajectory integration fails to converge (no solver column at
the requested time) or the configuration is degenerate (zero mass with a
moving munition, so the drag term divides by zero), `Grenade` construction
surfaces an error instead of caching a detonation position. -/
theorem C5_grenade_error_surfaces :
    ∀ (mass dragFactor : ℝ) (deployPos deployVel : Vec3)
      (deployTime fuseTime : ℝ) (solYCols : List Vec6),
      solYCols = [] ∨ (mass = 0 ∧ Vec3.norm deployVel > 1e-6) →
      ∃ e, Grenade.construct mass dragFactor deployPos deployVel deployTime
        fuseTime solYCols = .error e := by
  intro mass dragFactor deployPos deployVel deployTime fuseTime solYCols h
  rcases h with h | ⟨hm, hv⟩
  · subst h
    cases hode : grenade_motion_ode 0 (deployPos, deployVel) mass dragFactor with
    | error e =>
      refine ⟨e, ?_⟩
      unfold Grenade.construct Grenade.solve_trajectory_scipy
      rw [hode]
      rfl
    | ok v =>
      refine ⟨.indexError, ?_⟩
      unfold Grenade.construct Grenade.solve_trajectory_scipy
      rw [hode]
      rfl
  · have hode : grenade_motion_ode 0 (deployPos, deployVel) mass dragFactor =
        .error .zeroDivisionError := by
      unfold grenade_motion_ode
      rw [if_pos hv, if_pos hm]
    refine ⟨.zeroDivisionError, ?_⟩
    unfold Grenade.construct Grenade.solve_trajectory_scipy
    rw [hode]
    rfl

/-- C5 witness: a non-converged integration (no solver output column)
surfaces an error from construction. -/
theorem C5_witness :
    (([] : List Vec6) = [] ∨ ((5 : ℝ) = 0 ∧ Vec3.norm ⟨70, 0, 0⟩ > 1e-6)) ∧
    ∃ e, Grenade.construct 5 GRENADE_DRAG_FACTOR ⟨0, 0, 2000⟩ ⟨70, 0, 0⟩ 1 2
      [] = .error e :=
  ⟨Or.inl rfl,
    C5_grenade_error_surfaces 5 GRENADE_DRAG_FACTOR ⟨0, 0, 2000⟩ ⟨70, 0, 0⟩ 1 2
      [] (Or.inl rfl)⟩

/-- C9. The objective evaluation is deterministic: it neither consumes the
optimizer's random stream nor mutates the cached optimizer state, so a second
call on the state left behind by a first call, under any random stream,
returns the same score. -/
theorem C9_objective_deterministic :
    ∀ (solver : Vec6 → ℝ → List Vec6) (uavsInitial : List (String × Vec3))
      (parse : List ℝ → List (String × UavStratR)) (st : P34State)
      (rng1 rng2 : List ℝ) (dv : List ℝ),
      (objectiveCall solver uavsInitial parse (st, rng1) dv).2.1 = st ∧
      (objectiveCall solver uavsInitial parse (st, rng1) dv).2.2 = rng1 ∧
      (objectiveCall solver uavsInitial parse
          ((objectiveCall solver uavsInitial parse (st, rng1) dv).2.1, rng2)
          dv).1 =
        (objectiveCall solver uavsInitial parse (st, rng1) dv).1 :=
  fun _ _ _ _ _ _ _ => ⟨rfl, rfl, rfl⟩

section CrossoverLemmas

/-- Unfolding one step of the crossover dimension loop. -/
theorem crossoverLoop_cons (mutant : List ℚ) (CR : ℚ) (rdim : ℕ) (t : ℚ)
    (ts : List ℚ) (i : ℕ) (o : Oracle) :
    crossoverLoop mutant CR rdim (t :: ts) i o =
      ((if fract (o.qs.headD 0) < CR ∨ i = rdim then mutant.getD i 0 else t) ::
        (crossoverLoop mutant CR rdim ts (i + 1) ⟨o.qs.tail, o.ns⟩).1,
       (crossoverLoop mutant CR rdim ts (i + 1) ⟨o.qs.tail, o.ns⟩).2) := rfl

/-- The forced dimension of the crossover loop always carries the mutant's
component. -/
theorem crossoverLoop_getD_forced (mutant : List ℚ) (CR : ℚ) (rdim : ℕ) :
    ∀ (ts : List ℚ) (i : ℕ) (o : Oracle), i ≤ rdim → rdim < i + ts.length →
      (crossoverLoop mutant CR rdim ts i o).1.getD (rdim - i) 0 =
        mutant.getD rdim 0 := by
  intro ts
  induction ts with
  | nil =>
    intro i o h1 h2
    simp only [List.length_nil, Nat.add_zero] at h2
    omega
  | cons t ts ih =>
    intro i o h1 h2
    rw [crossoverLoop_cons]
    by_cases hir : i = rdim
    · subst hir
      rw [if_pos (Or.inr rfl)]
      simp only [Nat.sub_self, List.getD_cons_zero]
    · have hlt : i < rdim := lt_of_le_of_ne h1 hir
      have hstep : rdim - i = (rdim - (i + 1)) + 1 := by omega
      rw [hstep, List.getD_cons_succ]
      exact ih (i + 1) ⟨o.qs.tail, o.ns⟩ (by omega)
        (by simp only [List.length_cons] at h2; omega)

/-- `crossover` in terms of the dimension loop, once the dimension is
positive. -/
theorem crossover_eq_loop (dim : ℕ) (target mutant : List ℚ) (CR : ℚ)
    (o : Oracle) (h : dim ≠ 0) :
    crossover dim target mutant CR o =
      crossoverLoop mutant CR (o.ns.headD 0 % dim) target 0 ⟨o.qs, o.ns.tail⟩ := by
  rw [crossover]
  simp only [Oracle.nextN, if_neg h]

end CrossoverLemmas

/-- C8 counterexample: with the mutant equal to the target the trial equals
the target, so crossover does not guarantee `trial ≠ target`; it only forces
the chosen dimension to be copied from the mutant. -/
theorem C8_counterexample :
    (crossover 1 [1] [1] 0 ⟨[], []⟩).1 = [1] := by
  rw [crossover_eq_loop 1 [1] [1] 0 ⟨[], []⟩ one_ne_zero, crossoverLoop_cons,
    if_pos (Or.inr (by decide))]
  rfl

/-- C8 (amended). For every target, mutant, and crossover rate (including
`CR = 0`), the trial takes its uniformly chosen forced dimension from the
mutant even when every random crossover draw fails; consequently
`trial ≠ target` whenever the mutant differs from the target at that forced
dimension. -/
theorem C8_forced_dimension :
    ∀ (target mutant : List ℚ) (CR : ℚ) (o : Oracle), 0 < target.length →
      ((crossover target.length target mutant CR o).1.getD
          (o.ns.headD 0 % target.length) 0 =
        mutant.getD (o.ns.headD 0 % target.length) 0) ∧
      (mutant.getD (o.ns.headD 0 % target.length) 0 ≠
          target.getD (o.ns.headD 0 % target.length) 0 →
        (crossover target.length target mutant CR o).1 ≠ target) := by
  intro target mutant CR o h
  have hr : o.ns.headD 0 % target.length < target.length := Nat.mod_lt _ h
  have h1 : (crossover target.length target mutant CR o).1.getD
      (o.ns.headD 0 % target.length) 0 =
      mutant.getD (o.ns.headD 0 % target.length) 0 := by
    rw [crossover_eq_loop _ _ _ _ _ (Nat.pos_iff_ne_zero.mp h)]
    have := crossoverLoop_getD_forced mutant CR (o.ns.headD 0 % target.length)
      target 0 ⟨o.qs, o.ns.tail⟩ (Nat.zero_le _) (by omega)
    simpa using this
  refine ⟨h1, fun hne heq => hne ?_⟩
  rw [← h1, heq]

/-- C8 witness: the amended theorem applied at a concrete target, mutant, and
zero crossover rate. -/
theorem C8_witness :
    0 < ([3] : List ℚ).length ∧
    (crossover ([3] : List ℚ).length [3] [5] 0 ⟨[], []⟩).1.getD 0 0 = 5 ∧
    (crossover ([3] : List ℚ).length [3] [5] 0 ⟨[], []⟩).1 ≠ [3] := by
  refine ⟨by decide, ?_, ?_⟩
  · exact (C8_forced_dimension [3] [5] 0 ⟨[], []⟩ (by decide)).1
  · exact (C8_forced_dimension [3] [5] 0 ⟨[], []⟩ (by decide)).2 (by simp)

section AdaptiveParamLemmas

/-- The deque suffix window is at most the capacity. -/
theorem lastN_length_le (n : ℕ) (l : List ℚ) : (lastN n l).length ≤ n := by
  simp only [lastN, List.length_drop]
  omega

/-- Truncating to the last `m` before appending more does not change the last
`m` of the whole. -/
theorem lastN_append_absorb (m : ℕ) (l l2 : List ℚ) :
    lastN m (lastN m l ++ l2) = lastN m (l ++ l2) := by
  unfold lastN
  by_cases h : l.length ≤ m
  · rw [Nat.sub_eq_zero_of_le h, List.drop_zero]
  · push_neg at h
    rw [List.drop_append_eq_append_drop, List.drop_append_eq_append_drop,
      List.drop_drop]
    have hA : (l.drop (l.length - m)).length = m := by
      rw [List.length_drop]
      omega
    rw [hA]
    simp only [List.length_append, List.length_drop, hA]
    congr 2 <;> omega

/-- Folding `add_success` over a generation's pairs accumulates exactly the
last `memory_size` of them (given the memory starts within capacity) and
leaves the distribution centers untouched. -/
theorem foldl_add_success_spec :
    ∀ (pairs : List (ℚ × ℚ)) (ap : AdaptiveParameters),
      ap.successful_F.length ≤ ap.memory_size →
      ap.successful_CR.length ≤ ap.memory_size →
      (pairs.foldl (fun a fc => a.add_success fc.1 fc.2) ap).memory_size =
          ap.memory_size ∧
      (pairs.foldl (fun a fc => a.add_success fc.1 fc.2) ap).successful_F =
          lastN ap.memory_size (ap.successful_F ++ pairs.map Prod.fst) ∧
      (pairs.foldl (fun a fc => a.add_success fc.1 fc.2) ap).successful_CR =
          lastN ap.memory_size (ap.successful_CR ++ pairs.map Prod.snd) ∧
      (pairs.foldl (fun a fc => a.add_success fc.1 fc.2) ap).mean_F = ap.mean_F ∧
      (pairs.foldl (fun a fc => a.add_success fc.1 fc.2) ap).mean_CR = ap.mean_CR := by
  intro pairs
  induction pairs with
  | nil =>
    intro ap h1 h2
    refine ⟨rfl, ?_, ?_, rfl, rfl⟩ <;>
      simp only [List.map_nil, List.append_nil, List.foldl_nil, lastN,
        Nat.sub_eq_zero_of_le h1, Nat.sub_eq_zero_of_le h2, List.drop_zero]
  | cons fc rest ih =>
    intro ap h1 h2
    have hF : (ap.add_success fc.1 fc.2).successful_F =
        lastN ap.memory_size (ap.successful_F ++ [fc.1]) := rfl
    have hCR : (ap.add_success fc.1 fc.2).successful_CR =
        lastN ap.memory_size (ap.successful_CR ++ [fc.2]) := rfl
    have hm : (ap.add_success fc.1 fc.2).memory_size = ap.memory_size := rfl
    obtain ⟨m1, f1, c1, mf1, mc1⟩ := ih (ap.add_success fc.1 fc.2)
      (by rw [hF, hm]; exact lastN_length_le _ _)
      (by rw [hCR, hm]; exact lastN_length_le _ _)
    have hmf : (ap.add_success fc.1 fc.2).mean_F = ap.mean_F := rfl
    have hmc : (ap.add_success fc.1 fc.2).mean_CR = ap.mean_CR := rfl
    rw [List.foldl_cons] at *
    refine ⟨by rw [m1, hm], ?_, ?_, by rw [mf1, hmf], by rw [mc1, hmc]⟩
    · rw [f1, hF, hm, lastN_append_absorb]
      simp [List.append_assoc]
    · rw [c1, hCR, hm, lastN_append_absorb]
      simp [List.append_assoc]

end AdaptiveParamLemmas

/-- C7 counterexample: a generation whose single success has `F = 1` moves the
center to `1`; the following generation with no successes leaves the center at
`1`, not at the claimed `0.5` default. -/
theorem C7_counterexample :
    (endGenUpdate (endGenUpdate AdaptiveParameters.init [(1, 1/2)]) []).mean_F = 1 ∧
    (endGenUpdate (endGenUpdate AdaptiveParameters.init [(1, 1/2)]) []).mean_F ≠ 1/2 := by
  have step1 : endGenUpdate AdaptiveParameters.init [(1, 1/2)] =
      ⟨100, [], [], 1, 1/2, 1/10, 1/10⟩ := by
    unfold endGenUpdate
    norm_num [AdaptiveParameters.add_success, AdaptiveParameters.update_parameters,
      AdaptiveParameters.init, dequeAppend, lastN]
  have step2 : endGenUpdate (⟨100, [], [], 1, 1/2, 1/10, 1/10⟩ :
      AdaptiveParameters) [] = ⟨100, [], [], 1, 1/2, 1/10, 1/10⟩ := by
    unfold endGenUpdate
    norm_num [AdaptiveParameters.update_parameters]
  rw [step1, step2]
  exact ⟨rfl, by norm_num⟩

/-- C7 (amended). At the end of every generation, starting from the empty
success memory the loop maintains: with at least one success this generation,
the center for F is recomputed as the Lehmer mean `ΣF²/ΣF` of the most recent
`memory_size` of that generation's successful F values (`0.5` if their sum is
nonpositive) and the center for CR as the arithmetic mean of the
corresponding successful CR values, after which the memory is emptied; with
no successes, both centers are left unchanged (hence at `0.5` only until some
earlier generation succeeded) and the memory stays empty. In either case no
successful pair recorded in one generation can influence a later
recomputation. -/
theorem C7_generation_local_recomputation :
    ∀ (ap : AdaptiveParameters) (pairs : List (ℚ × ℚ)),
      ap.successful_F = [] → ap.successful_CR = [] → 0 < ap.memory_size →
      (endGenUpdate ap pairs).successful_F = [] ∧
      (endGenUpdate ap pairs).successful_CR = [] ∧
      (pairs = [] → (endGenUpdate ap pairs).mean_F = ap.mean_F ∧
        (endGenUpdate ap pairs).mean_CR = ap.mean_CR) ∧
      (pairs ≠ [] →
        (endGenUpdate ap pairs).mean_F =
          (if 0 < (lastN ap.memory_size (pairs.map Prod.fst)).sum then
            ((lastN ap.memory_size (pairs.map Prod.fst)).map (fun x => x ^ 2)).sum /
              (lastN ap.memory_size (pairs.map Prod.fst)).sum
          else 1/2) ∧
        (endGenUpdate ap pairs).mean_CR =
          (lastN ap.memory_size (pairs.map Prod.snd)).sum /
            ((lastN ap.memory_size (pairs.map Prod.snd)).length : ℚ)) := by
  intro ap pairs hF hCR hm
  obtain ⟨m1, f1, c1, mf1, mc1⟩ := foldl_add_success_spec pairs ap
    (by rw [hF]; exact Nat.zero_le _) (by rw [hCR]; exact Nat.zero_le _)
  rw [hF] at f1
  rw [hCR] at c1
  simp only [List.nil_append] at f1 c1
  set r := pairs.foldl (fun a fc => a.add_success fc.1 fc.2) ap with hr
  rcases eq_or_ne pairs [] with hp | hp
  · subst hp
    simp only [List.map_nil, lastN, List.drop_nil] at f1 c1
    have : r.update_parameters = r := by
      rw [AdaptiveParameters.update_parameters, if_neg (by rw [f1]; simp)]
    refine ⟨?_, ?_, fun _ => ⟨?_, ?_⟩, fun hc => absurd rfl hc⟩ <;>
      simp only [endGenUpdate, ← hr, this, f1, c1, mf1, mc1]
  · have hlen : 0 < r.successful_F.length := by
      rw [f1]
      simp only [lastN, List.length_drop, List.length_map]
      have : pairs.map Prod.fst ≠ [] := by
        simpa using hp
      have hpl : 0 < pairs.length := List.length_pos.mpr hp
      omega
    have hupd : r.update_parameters =
        { r with
          mean_F := if 0 < r.successful_F.sum then
              (r.successful_F.map (fun x => x ^ 2)).sum / r.successful_F.sum
            else 1/2
          mean_CR := r.successful_CR.sum / (r.successful_CR.length : ℚ)
          successful_F := [], successful_CR := [] } := by
      rw [AdaptiveParameters.update_parameters, if_pos hlen]
    refine ⟨?_, ?_, fun hc => absurd hc hp, fun _ => ⟨?_, ?_⟩⟩ <;>
      simp only [endGenUpdate, ← hr, hupd, f1, c1, m1]

/-- C7 witness: the amended theorem applied to one concrete generation with
two successes. -/
theorem C7_witness :
    (AdaptiveParameters.init.successful_F = [] ∧
      AdaptiveParameters.init.successful_CR = [] ∧
      0 < AdaptiveParameters.init.memory_size) ∧
    (endGenUpdate AdaptiveParameters.init [(1, 1/2), (2, 1)]).mean_F = 5/3 ∧
    (endGenUpdate AdaptiveParameters.init [(1, 1/2), (2, 1)]).mean_CR = 3/4 ∧
    (endGenUpdate AdaptiveParameters.init [(1, 1/2), (2, 1)]).successful_F = [] := by
  have h := C7_generation_local_recomputation AdaptiveParameters.init
    [(1, 1/2), (2, 1)] rfl rfl (by decide)
  refine ⟨⟨rfl, rfl, by decide⟩, ?_, ?_, h.1⟩
  · rw [(h.2.2.2 (by simp)).1]
    norm_num [lastN, AdaptiveParameters.init]
  · rw [(h.2.2.2 (by simp)).2]
    norm_num [lastN, AdaptiveParameters.init]

section ParseLemmas

/-- Reading past the end of the vector raises `IndexError`. -/
theorem pyGet_eq_error {l : List ℚ} {i : ℕ} (h : l.length ≤ i) :
    pyGet l i = .error .indexError := by
  rw [pyGet, List.get?_eq_none.mpr h]

/-- In-range reads succeed. -/
theorem pyGet_eq_ok {l : List ℚ} {i : ℕ} (h : i < l.length) :
    ∃ v, pyGet l i = .ok v :=
  ⟨l.get ⟨i, h⟩, by rw [pyGet, List.get?_eq_get h]⟩

/-- `pyIdx` fails only with `IndexError`. -/
theorem pyIdx_error_eq {l : List String} {i : ℤ} {e : PyError}
    (h : pyIdx l i = .error e) : e = .indexError := by
  rw [pyIdx] at h
  split at h <;> split at h
  · simp at h
  · exact ((Except.error.injEq _ _).mp h).symm
  · simp at h
  · exact ((Except.error.injEq _ _).mp h).symm

/-- An error result is a decode error exactly for the caught exception
kinds. -/
theorem isDecodeErr_error_iff {α : Type} {e : PyError} :
    isDecodeErr (Except.error (α := α) e) = true ↔
      e = .valueError ∨ e = .indexError := by
  cases e <;> simp [isDecodeErr]

/-- The two-element unpacking fails with `ValueError` when the slice is too
short. -/
theorem pyUnpack2_error {l : List ℚ} {i : ℕ} (h : l.length ≤ i + 1) :
    pyUnpack2 l i = .error .valueError := by
  rw [pyUnpack2, List.get?_eq_none.mpr h]
  cases hg : l.get? i <;> rfl

/-- The two-element unpacking succeeds when both entries exist. -/
theorem pyUnpack2_ok {l : List ℚ} {i : ℕ} (h : i + 1 < l.length) :
    ∃ a b, pyUnpack2 l i = .ok (a, b) :=
  ⟨l.get ⟨i, by omega⟩, l.get ⟨i + 1, h⟩, by
    rw [pyUnpack2, List.get?_eq_get h, List.get?_eq_get (by omega : i < l.length)]⟩

/-- The munition loop either raises a decode error or consumes exactly three
entries per munition, ending at `dvIndex + 3 * n`, never past the vector. -/
theorem parseGrenades_cases (cfg : P5Config) (dv : List ℚ) :
    ∀ (n dvIndex : ℕ) (lastTd : ℚ) (isFirst : Bool),
      isDecodeErr (parseGrenades cfg dv n dvIndex lastTd isFirst) = true ∨
      ∃ gs, parseGrenades cfg dv n dvIndex lastTd isFirst =
          .ok (gs, dvIndex + 3 * n) ∧ (n = 0 ∨ dvIndex + 3 * n ≤ dv.length) := by
  intro n
  induction n with
  | zero =>
    intro dvIndex lastTd isFirst
    exact Or.inr ⟨[], by rw [parseGrenades, Nat.mul_zero, Nat.add_zero],
      Or.inl rfl⟩
  | succ n ih =>
    intro dvIndex lastTd isFirst
    rw [parseGrenades]
    by_cases h0 : dvIndex < dv.length
    · obtain ⟨v0, hv0⟩ := pyGet_eq_ok h0
      rw [hv0]
      dsimp only []
      by_cases h1 : dvIndex + 1 < dv.length
      · obtain ⟨v1, hv1⟩ := pyGet_eq_ok h1
        rw [hv1]
        dsimp only []
        by_cases h2 : dvIndex + 2 < dv.length
        · obtain ⟨v2, hv2⟩ := pyGet_eq_ok h2
          rw [hv2]
          dsimp only []
          cases hidx : pyIdx cfg.missile_ids
              (min (pyIntTrunc (v2 * cfg.missile_ids.length))
                ((cfg.missile_ids.length : ℤ) - 1)) with
          | error e =>
            left
            rw [pyIdx_error_eq hidx]
            rfl
          | ok tm =>
            dsimp only []
            rcases ih (dvIndex + 3) (if isFirst then v0 else lastTd + v0) false
              with herr | ⟨gs, hok, hside⟩
            · left
              cases hrec : parseGrenades cfg dv n (dvIndex + 3)
                  (if isFirst then v0 else lastTd + v0) false with
              | error e =>
                rw [hrec] at herr
                exact herr
              | ok pr =>
                rw [hrec] at herr
                simp [isDecodeErr] at herr
            · right
              rw [hok]
              dsimp only []
              have harith : dvIndex + 3 + 3 * n = dvIndex + 3 * (n + 1) := by
                omega
              refine ⟨⟨if isFirst then v0 else lastTd + v0, v1, tm⟩ :: gs,
                by rw [harith], ?_⟩
              right
              rcases hside with h | h
              · subst h
                omega
              · omega
        · left
          rw [pyGet_eq_error (by omega : dv.length ≤ dvIndex + 2)]
          rfl
      · left
        rw [pyGet_eq_error (by omega : dv.length ≤ dvIndex + 1)]
        rfl
    · left
      rw [pyGet_eq_error (by omega : dv.length ≤ dvIndex)]
      rfl

/-- The carrier loop raises a decode error whenever the vector is too short
for the remaining schema. -/
theorem parseUavs_short (cfg : P5Config) (dv : List ℚ) :
    ∀ (pairs : List (String × ℕ)) (dvIndex : ℕ),
      dvIndex ≤ dv.length →
      dv.length < dvIndex + (pairs.map (fun p => 2 + 3 * p.2)).foldr (· + ·) 0 →
      isDecodeErr (parseUavs cfg dv pairs dvIndex) = true := by
  intro pairs
  induction pairs with
  | nil =>
    intro dvIndex h1 h2
    simp only [List.map_nil, List.foldr_nil, Nat.add_zero] at h2
    omega
  | cons p rest ih =>
    obtain ⟨uid, cnt⟩ := p
    intro dvIndex h1 h2
    simp only [List.map_cons, List.foldr_cons] at h2
    rw [parseUavs]
    by_cases hu : dvIndex + 1 < dv.length
    · obtain ⟨sp, an, hab⟩ := pyUnpack2_ok hu
      rw [hab]
      dsimp only []
      rcases parseGrenades_cases cfg dv cnt (dvIndex + 2) 0 true
        with herr | ⟨gs, hok, hside⟩
      · cases hrec : parseGrenades cfg dv cnt (dvIndex + 2) 0 true with
        | error e =>
          rw [hrec] at herr
          dsimp only []
          rcases isDecodeErr_error_iff.mp herr with he | he <;> subst he <;> rfl
        | ok pr =>
          rw [hrec] at herr
          simp [isDecodeErr] at herr
      · rw [hok]
        dsimp only []
        have hnext : dvIndex + 2 + 3 * cnt ≤ dv.length := by
          rcases hside with h | h
          · subst h
            omega
          · omega
        have hrest := ih (dvIndex + 2 + 3 * cnt) hnext (by omega)
        cases hrec : parseUavs cfg dv rest (dvIndex + 2 + 3 * cnt) with
        | error e =>
          rw [hrec] at hrest
          dsimp only []
          exact hrest
        | ok pr =>
          rw [hrec] at hrest
          simp [isDecodeErr] at hrest
    · rw [pyUnpack2_error (by omega : dv.length ≤ dvIndex + 1)]
      rfl

end ParseLemmas

/-- C3 counterexample: a decision vector one entry longer than the schema
(one carrier with one munition needs five entries, six are supplied) is not
rejected — it decodes successfully, silently ignoring the trailing entry. -/
theorem C3_counterexample :
    (([1, 2, 3, 4, 0, 99] : List ℚ).length ≠
      schemaLength ⟨[("FY1", 1)], ["M1"]⟩) ∧
    parse_decision_variables ⟨[("FY1", 1)], ["M1"]⟩ [1, 2, 3, 4, 0, 99] =
      .ok [("FY1", ⟨1, 2, [⟨3, 4, "M1"⟩]⟩)] ∧
    isDecodeErr (parse_decision_variables ⟨[("FY1", 1)], ["M1"]⟩
      [1, 2, 3, 4, 0, 99]) = false := by
  have hp : parse_decision_variables ⟨[("FY1", 1)], ["M1"]⟩ [1, 2, 3, 4, 0, 99] =
      .ok [("FY1", ⟨1, 2, [⟨3, 4, "M1"⟩]⟩)] := by
    norm_num [parse_decision_variables, parseUavs, parseGrenades, pyUnpack2,
      pyGet, pyIdx, pyIntTrunc]
  exact ⟨by decide, hp, by rw [hp]; rfl⟩

/-- C3 (amended). Every decision vector shorter than the schema implied by
the configured carrier and munition counts is rejected with a decode error
(Python `ValueError` or `IndexError`), which `objective_function` converts
into the worst-case finite score `1e9` instead of propagating; vectors longer
than the schema are not rejected (decoding reads only the schema-length
prefix). -/
theorem C3_short_vector_rejected :
    ∀ (cfg : P5Config) (rest : List (String × UavStrat) → ℚ) (dv : List ℚ),
      dv.length < schemaLength cfg →
      isDecodeErr (parse_decision_variables cfg dv) = true ∧
      objective_function cfg rest dv = .ok 1e9 := by
  intro cfg rest dv h
  have herr := parseUavs_short cfg dv cfg.uavPairs 0 (Nat.zero_le _)
    (by simpa [schemaLength] using h)
  refine ⟨herr, ?_⟩
  rw [objective_function]
  rcases hp : parse_decision_variables cfg dv with e | s
  · rw [parse_decision_variables] at hp
    rw [hp] at herr
    cases e <;> simp [isDecodeErr] at herr ⊢
  · rw [parse_decision_variables] at hp
    rw [hp] at herr
    simp [isDecodeErr] at herr

/-- C3 witness: a three-entry vector against a five-entry schema is rejected
and scored `1e9`. -/
theorem C3_witness :
    (([1, 2, 3] : List ℚ).length < schemaLength ⟨[("FY1", 1)], ["M1"]⟩) ∧
    isDecodeErr (parse_decision_variables ⟨[("FY1", 1)], ["M1"]⟩ [1, 2, 3]) =
      true ∧
    objective_function ⟨[("FY1", 1)], ["M1"]⟩ (fun _ => 0) [1, 2, 3] =
      .ok 1e9 := by
  refine ⟨by decide, ?_, ?_⟩
  · exact (C3_short_vector_rejected ⟨[("FY1", 1)], ["M1"]⟩ (fun _ => 0)
      [1, 2, 3] (by decide)).1
  · exact (C3_short_vector_rejected ⟨[("FY1", 1)], ["M1"]⟩ (fun _ => 0)
      [1, 2, 3] (by decide)).2

section MonotoneLemmas

/-- One individual step never increases the tracked best fitness: a trial
replaces the best only when strictly better. -/
theorem evolveIndividual_best_le (p : DEParams) (st : DEState) (i : ℕ)
    (recs : GenRecords) (o : Oracle) :
    (evolveIndividual p st i recs o).1.best_fitness ≤ st.best_fitness := by
  unfold evolveIndividual
  dsimp only []
  split
  · split
    · exact le_of_lt (by assumption)
    · exact le_refl _
  · exact le_refl _

/-- One individual step does not touch the convergence history. -/
theorem evolveIndividual_history (p : DEParams) (st : DEState) (i : ℕ)
    (recs : GenRecords) (o : Oracle) :
    (evolveIndividual p st i recs o).1.convergence_history =
      st.convergence_history := by
  unfold evolveIndividual
  dsimp only []
  split
  · split <;> rfl
  · rfl

/-- The individual loop never increases the tracked best fitness. -/
theorem evolveAll_best_le (p : DEParams) (n : ℕ) :
    ∀ (k i : ℕ) (sro : DEState × GenRecords × Oracle), n - i ≤ k →
      (evolveAll p n i sro).1.best_fitness ≤ sro.1.best_fitness := by
  intro k
  induction k with
  | zero =>
    intro i sro h
    rw [evolveAll, dif_neg (by omega)]
  | succ k ih =>
    intro i sro h
    rw [evolveAll]
    by_cases hi : i < n
    · rw [dif_pos hi]
      exact le_trans (ih (i + 1) _ (by omega))
        (evolveIndividual_best_le p sro.1 i sro.2.1 sro.2.2)
    · rw [dif_neg hi]

/-- The individual loop does not touch the convergence history. -/
theorem evolveAll_history (p : DEParams) (n : ℕ) :
    ∀ (k i : ℕ) (sro : DEState × GenRecords × Oracle), n - i ≤ k →
      (evolveAll p n i sro).1.convergence_history =
        sro.1.convergence_history := by
  intro k
  induction k with
  | zero =>
    intro i sro h
    rw [evolveAll, dif_neg (by omega)]
  | succ k ih =>
    intro i sro h
    rw [evolveAll]
    by_cases hi : i < n
    · rw [dif_pos hi]
      rw [ih (i + 1) _ (by omega)]
      exact evolveIndividual_history p sro.1 i sro.2.1 sro.2.2
    · rw [dif_neg hi]

/-- Population shrinking does not change the tracked best fitness. -/
theorem update_population_size_best (p : DEParams) (st : DEState) :
    (update_population_size p st).best_fitness = st.best_fitness := by
  unfold update_population_size
  dsimp only []
  split
  · split <;> rfl
  · rfl

/-- Population shrinking does not touch the convergence history. -/
theorem update_population_size_history (p : DEParams) (st : DEState) :
    (update_population_size p st).convergence_history =
      st.convergence_history := by
  unfold update_population_size
  dsimp only []
  split
  · split <;> rfl
  · rfl

/-- End-of-generation bookkeeping keeps the best fitness. -/
theorem endOfGeneration_best (st : DEState) (recs : GenRecords) :
    (endOfGeneration st recs).best_fitness = st.best_fitness := rfl

/-- End-of-generation bookkeeping appends exactly the current best fitness to
the history. -/
theorem endOfGeneration_history (st : DEState) (recs : GenRecords) :
    (endOfGeneration st recs).convergence_history =
      st.convergence_history ++ [st.best_fitness] := rfl

/-- A full generation never increases the tracked best fitness. -/
theorem genStep_best_le (p : DEParams) (g : ℕ) (so : DEState × Oracle) :
    (genStep p g so).1.best_fitness ≤ so.1.best_fitness := by
  unfold genStep
  dsimp only []
  rw [endOfGeneration_best]
  set st1 := update_population_size p { so.1 with generation := g } with hst1
  have h1 := evolveAll_best_le p st1.population.length st1.population.length 0
    (st1, ⟨[], [], []⟩, so.2) (by omega)
  exact le_trans h1 (le_of_eq (by rw [hst1, update_population_size_best]))

/-- A full generation appends its own (final) best fitness to the history. -/
theorem genStep_history (p : DEParams) (g : ℕ) (so : DEState × Oracle) :
    (genStep p g so).1.convergence_history =
      so.1.convergence_history ++ [(genStep p g so).1.best_fitness] := by
  unfold genStep
  dsimp only []
  rw [endOfGeneration_history, endOfGeneration_best]
  set st1 := update_population_size p { so.1 with generation := g } with hst1
  rw [evolveAll_history p st1.population.length st1.population.length 0
    (st1, ⟨[], [], []⟩, so.2) (by omega)]
  rw [hst1, update_population_size_history]

/-- The loop invariant: a monotone history whose last entry dominates the
current best stays monotone through every further generation. -/
theorem optimizeLoop_chain (p : DEParams) :
    ∀ (k g : ℕ) (so : DEState × Oracle),
      List.Chain' (fun a b => b ≤ a) so.1.convergence_history →
      (∀ x ∈ so.1.convergence_history.getLast?, so.1.best_fitness ≤ x) →
      List.Chain' (fun a b => b ≤ a)
        (optimizeLoop p k g so).1.convergence_history := by
  intro k
  induction k with
  | zero =>
    intro g so h1 h2
    exact h1
  | succ k ih =>
    intro g so h1 h2
    rw [optimizeLoop]
    have hch : List.Chain' (fun a b => b ≤ a)
        (genStep p g so).1.convergence_history := by
      rw [genStep_history]
      refine List.chain'_append.mpr ⟨h1, List.chain'_singleton _, ?_⟩
      intro x hx y hy
      simp only [List.head?_cons, Option.mem_def, Option.some.injEq] at hy
      subst hy
      exact le_trans (genStep_best_le p g so) (h2 x hx)
    have hlast : ∀ x ∈ (genStep p g so).1.convergence_history.getLast?,
        (genStep p g so).1.best_fitness ≤ x := by
      rw [genStep_history]
      intro x hx
      rw [List.getLast?_concat] at hx
      simp only [Option.mem_def, Option.some.injEq] at hx
      subst hx
      exact le_refl _
    split
    · exact hch
    · exact ih (g + 1) _ hch hlast

end MonotoneLemmas

/-- C6. Across a whole `optimize()` run — for every objective function,
bounds, population size, boundary mode, and random stream — the tracked best
fitness is non-increasing from each generation to the next: every entry of
`convergence_history` is at most its predecessor. An individual is replaced
only by a strictly better trial, the global best is only updated downward,
and population shrinking keeps the best-ranked individuals, so the appended
best values can only descend. -/
theorem C6_convergence_history_monotone :
    ∀ (p : DEParams) (o : Oracle),
      List.Chain' (fun a b => b ≤ a) (optimize p o).1.convergence_history := by
  intro p o
  unfold optimize
  apply optimizeLoop_chain
  · exact List.chain'_nil
  · intro x hx
    simp [initialize_population] at hx

section MinLemmas

/-- The running minimum of a fold: it is the seed or a list member, below the
seed, and below every member. -/
theorem foldl_min_spec (xs : List ℚ) : ∀ (a : ℚ),
    (xs.foldl min a = a ∨ xs.foldl min a ∈ xs) ∧ xs.foldl min a ≤ a ∧
    ∀ x ∈ xs, xs.foldl min a ≤ x := by
  induction xs with
  | nil =>
    intro a
    exact ⟨Or.inl rfl, le_refl _, by simp⟩
  | cons x xs ih =>
    intro a
    rw [List.foldl_cons]
    obtain ⟨hmem, hle, hall⟩ := ih (min a x)
    refine ⟨?_, le_trans hle (min_le_left _ _), ?_⟩
    · rcases hmem with h | h
      · rcases le_total a x with hax | hax
        · rw [min_eq_left hax] at h ⊢
          exact Or.inl h
        · rw [min_eq_right hax] at h ⊢
          refine Or.inr ?_
          rw [h]
          exact List.mem_cons_self _ _
      · exact Or.inr (List.mem_cons_of_mem _ h)
    · intro y hy
      rcases List.mem_cons.mp hy with h | h
      · subst h
        exact le_trans hle (min_le_right _ _)
      · exact hall y h

/-- The list minimum is attained. -/
theorem listMin_mem {l : List ℚ} (h : l ≠ []) : listMin l ∈ l := by
  cases l with
  | nil => exact absurd rfl h
  | cons x xs =>
    rw [listMin]
    rcases (foldl_min_spec xs x).1 with h1 | h1
    · rw [h1]
      exact List.mem_cons_self _ _
    · exact List.mem_cons_of_mem _ h1

/-- The list minimum bounds every member. -/
theorem listMin_le {l : List ℚ} : ∀ x ∈ l, listMin l ≤ x := by
  cases l with
  | nil => simp
  | cons x xs =>
    intro y hy
    rw [listMin]
    rcases List.mem_cons.mp hy with h | h
    · exact h ▸ (foldl_min_spec xs x).2.1
    · exact (foldl_min_spec xs x).2.2 y h

/-- A member below all members is the list minimum. -/
theorem listMin_eq_of {l : List ℚ} {m : ℚ} (hm : m ∈ l)
    (hle : ∀ x ∈ l, m ≤ x) : listMin l = m :=
  le_antisymm (listMin_le m hm) (hle _ (listMin_mem (List.ne_nil_of_mem hm)))

/-- `np.argmin` lands in range. -/
theorem argminIdx_lt {l : List ℚ} (h : l ≠ []) : argminIdx l < l.length :=
  List.indexOf_lt_length.mpr (listMin_mem h)

/-- Reading at the argmin index yields the minimum. -/
theorem getD_argminIdx {l : List ℚ} (h : l ≠ []) :
    l.getD (argminIdx l) 0 = listMin l := by
  rw [List.getD_eq_getElem?_getD, List.getElem?_eq_getElem (argminIdx_lt h)]
  exact List.getElem_indexOf (argminIdx_lt h)

/-- Lowering one entry moves the minimum to the smaller of the old minimum
and the new value. -/
theorem listMin_set {l : List ℚ} {i : ℕ} {v : ℚ} (hi : i < l.length)
    (hv : v < l.getD i 0) : listMin (l.set i v) = min (listMin l) v := by
  have hne : l ≠ [] := List.ne_nil_of_length_pos (by omega)
  have hgd : l.getD i 0 = l[i] := by
    rw [List.getD_eq_getElem?_getD, List.getElem?_eq_getElem hi]
    rfl
  apply listMin_eq_of
  · rcases le_total v (listMin l) with hc | hc
    · rw [min_eq_right hc]
      have h1 : i < (l.set i v).length := by simpa using hi
      have hv' : (l.set i v)[i] = v := List.getElem_set_self h1
      have hmem2 : (l.set i v)[i] ∈ l.set i v := List.getElem_mem h1
      rw [hv'] at hmem2
      exact hmem2
    · rw [min_eq_left hc]
      obtain ⟨j, hj, hval⟩ := List.getElem_of_mem (listMin_mem hne)
      have hji : i ≠ j := by
        intro he
        have hval' : l.getD i 0 = listMin l := by
          have h2 : l.getD j 0 = listMin l := by
            rw [List.getD_eq_getElem?_getD, List.getElem?_eq_getElem hj]
            exact hval
          rw [he]
          exact h2
        rw [hval'] at hv
        exact absurd (lt_of_le_of_lt hc hv) (lt_irrefl _)
      have h2 : j < (l.set i v).length := by simpa using hj
      have hsv : (l.set i v)[j] = l[j] := List.getElem_set_ne hji h2
      have hmem2 : (l.set i v)[j] ∈ l.set i v := List.getElem_mem h2
      rw [hsv, hval] at hmem2
      exact hmem2
  · intro x hx
    rcases List.mem_or_eq_of_mem_set hx with h | h
    · exact le_trans (min_le_left _ _) (listMin_le x h)
    · exact h ▸ min_le_right _ _

end MinLemmas

section InvariantLemmas

/-- Writing a cell and reading it back (`getD` form). -/
theorem getD_set_self : ∀ (l : List ℚ) (i : ℕ) (v : ℚ), i < l.length →
    (l.set i v).getD i 0 = v := by
  intro l
  induction l with
  | nil =>
    intro i v h
    simp at h
  | cons x xs ih =>
    intro i v h
    cases i with
    | zero => rfl
    | succ j =>
      show (xs.set j v).getD j 0 = v
      have h' : j < xs.length := by
        rw [List.length_cons] at h
        omega
      exact ih j v h'

/-- Writing one cell leaves every other cell unchanged (`getD` form). -/
theorem getD_set_ne : ∀ (l : List ℚ) (i j : ℕ) (v : ℚ), i ≠ j →
    (l.set i v).getD j 0 = l.getD j 0 := by
  intro l
  induction l with
  | nil =>
    intro i j v _
    rfl
  | cons x xs ih =>
    intro i j v h
    cases i with
    | zero =>
      cases j with
      | zero => exact absurd rfl h
      | succ m => rfl
    | succ n =>
      cases j with
      | zero => rfl
      | succ m =>
        show (xs.set n v).getD m 0 = xs.getD m 0
        exact ih n m v (fun he => h (by rw [he]))

/-- The drawn initial population has exactly `popsize` rows. -/
theorem drawPopulation_length (b : List (ℚ × ℚ)) :
    ∀ (n : ℕ) (o : Oracle), (drawPopulation b n o).1.length = n := by
  intro n
  induction n with
  | zero =>
    intro o
    rfl
  | succ k ih =>
    intro o
    show ((drawRow b o).1 :: (drawPopulation b k (drawRow b o).2).1).length = k + 1
    rw [List.length_cons, ih]

/-- `initialize_population` establishes the best-tracking invariant whenever at
least one individual is drawn. -/
theorem initialize_population_inv (p : DEParams) (o : Oracle)
    (hp : 1 ≤ p.popsize) : DEInv (initialize_population p o).1 := by
  have hlen := drawPopulation_length p.bounds p.popsize o
  have hfne : (drawPopulation p.bounds p.popsize o).1.map p.objective ≠ [] := by
    have h2 : ((drawPopulation p.bounds p.popsize o).1.map p.objective).length
        = p.popsize := by
      rw [List.length_map, hlen]
    intro h
    rw [h] at h2
    simp at h2
    omega
  refine ⟨?_, ?_, ?_, rfl⟩
  · show ((drawPopulation p.bounds p.popsize o).1.map p.objective).length =
      (drawPopulation p.bounds p.popsize o).1.length
    rw [List.length_map]
  · show argminIdx ((drawPopulation p.bounds p.popsize o).1.map p.objective) <
      ((drawPopulation p.bounds p.popsize o).1.map p.objective).length
    exact argminIdx_lt hfne
  · show ((drawPopulation p.bounds p.popsize o).1.map p.objective).getD
      (argminIdx ((drawPopulation p.bounds p.popsize o).1.map p.objective)) 0 =
      listMin ((drawPopulation p.bounds p.popsize o).1.map p.objective)
    exact getD_argminIdx hfne

/-- One per-individual selection step preserves the best-tracking invariant:
a strictly better trial replaces the individual and, when it also beats the
global best, retargets `best_idx`/`best_fitness`; otherwise the state is
untouched. -/
theorem evolveIndividual_inv (p : DEParams) (st : DEState) (i : ℕ)
    (recs : GenRecords) (o : Oracle) (hinv : DEInv st)
    (hi : i < st.population.length) :
    DEInv (evolveIndividual p st i recs o).1 := by
  obtain ⟨hlen, hbi, hbest, hatt⟩ := hinv
  have hif : i < st.fitness.length := by omega
  unfold evolveIndividual
  dsimp only []
  split
  next hs =>
    have hv := of_decide_eq_true hs
    split
    next ht =>
      rw [DEInv]
      dsimp only []
      refine ⟨?_, ?_, ?_, ?_⟩
      · rw [List.length_set, List.length_set, hlen]
      · rw [List.length_set]
        exact hif
      · rw [listMin_set hif hv]
        exact (min_eq_right (le_of_lt (hbest ▸ ht))).symm
      · exact getD_set_self _ _ _ hif
    next ht =>
      have hne2 : i ≠ st.best_idx := by
        intro he
        have hatt' := hatt
        rw [← he] at hatt'
        rw [hatt'] at hv
        exact ht hv
      rw [DEInv]
      dsimp only []
      refine ⟨?_, ?_, ?_, ?_⟩
      · rw [List.length_set, List.length_set, hlen]
      · rw [List.length_set]
        exact hbi
      · rw [listMin_set hif hv, ← hbest]
        exact (min_eq_left (not_lt.mp ht)).symm
      · rw [getD_set_ne _ _ _ _ hne2]
        exact hatt
  next hs =>
    exact ⟨hlen, hbi, hbest, hatt⟩

/-- Keeping the `k` best-ranked `(fitness, individual)` pairs (any `k ≥ 1`)
preserves the best-tracking invariant, with `best_idx` reset to `0`. -/
theorem DEInv_shrink (st : DEState) (k : ℕ) (hinv : DEInv st) (hk : 1 ≤ k)
    (hne0 : st.fitness ≠ []) :
    DEInv { st with
      population :=
        ((List.insertionSort fitnessLe (st.fitness.zip st.population)).take
          k).map Prod.snd
      fitness :=
        ((List.insertionSort fitnessLe (st.fitness.zip st.population)).take
          k).map Prod.fst
      best_idx := 0 } := by
  obtain ⟨hlen, hbi, hbest, hatt⟩ := hinv
  set z := st.fitness.zip st.population with hz
  set s := List.insertionSort fitnessLe z with hs2
  have hperm : s.Perm z := List.perm_insertionSort fitnessLe z
  have hsorted : List.Sorted fitnessLe s := List.sorted_insertionSort fitnessLe z
  have hzlen : z.length = st.fitness.length := by
    rw [hz, List.length_zip, ← hlen, min_self]
  have hslen : s.length = st.fitness.length := hperm.length_eq.trans hzlen
  have hsne : s ≠ [] := by
    intro h
    rw [h] at hslen
    exact hne0 (List.length_eq_zero.mp hslen.symm)
  obtain ⟨a, t, hst⟩ := List.exists_cons_of_ne_nil hsne
  have hha : ∀ b ∈ t, fitnessLe a b := by
    have h3 := hsorted
    rw [hst] at h3
    exact List.rel_of_sorted_cons h3
  have hfst : z.map Prod.fst = st.fitness := by
    rw [hz]
    exact List.map_fst_zip _ _ (le_of_eq hlen)
  have hfsp : (s.map Prod.fst).Perm st.fitness := by
    rw [← hfst]
    exact hperm.map Prod.fst
  have hamem : a.1 ∈ st.fitness := by
    refine hfsp.mem_iff.mp ?_
    rw [hst]
    exact List.mem_map_of_mem _ (List.mem_cons_self _ _)
  have hale : ∀ x ∈ st.fitness, a.1 ≤ x := by
    intro x hx
    have hx' : x ∈ s.map Prod.fst := hfsp.mem_iff.mpr hx
    obtain ⟨y, hy, hyx⟩ := List.mem_map.mp hx'
    rw [hst] at hy
    rcases List.mem_cons.mp hy with h | h
    · rw [← hyx, h]
    · rw [← hyx]
      exact hha y h
  have hmin : listMin st.fitness = a.1 := listMin_eq_of hamem hale
  obtain ⟨m, hm⟩ := Nat.exists_eq_add_of_le hk
  have hkept : s.take k = a :: t.take m := by
    rw [hst, hm, Nat.add_comm, List.take_succ_cons]
  have hnf : (s.take k).map Prod.fst = a.1 :: (t.take m).map Prod.fst := by
    rw [hkept, List.map_cons]
  have hnfmin : listMin ((s.take k).map Prod.fst) = a.1 := by
    apply listMin_eq_of
    · rw [hnf]
      exact List.mem_cons_self _ _
    · intro x hx
      rw [hnf] at hx
      rcases List.mem_cons.mp hx with h | h
      · rw [h]
      · obtain ⟨y, hy, hyx⟩ := List.mem_map.mp h
        rw [← hyx]
        exact hha y (List.mem_of_mem_take hy)
  refine ⟨?_, ?_, ?_, ?_⟩
  · show ((s.take k).map Prod.fst).length = ((s.take k).map Prod.snd).length
    rw [List.length_map, List.length_map]
  · show 0 < ((s.take k).map Prod.fst).length
    rw [hnf]
    simp
  · show st.best_fitness = listMin ((s.take k).map Prod.fst)
    rw [hnfmin, hbest]
    exact hmin
  · show ((s.take k).map Prod.fst).getD 0 0 = st.best_fitness
    rw [hnf, List.getD_cons_zero, hbest]
    exact hmin.symm

/-- The population shrink preserves the best-tracking invariant. -/
theorem update_population_size_inv (p : DEParams) (st : DEState)
    (hinv : DEInv st) : DEInv (update_population_size p st) := by
  unfold update_population_size
  dsimp only []
  split
  next hap =>
    split
    next hcs =>
      apply DEInv_shrink st _ hinv
      · refine le_trans ?_ (Int.toNat_le_toNat (le_max_right _ _))
        rw [Int.toNat_natCast]
        exact le_trans (by norm_num) (le_max_left 4 (p.dim / 2))
      · intro h0
        have hlen := hinv.1
        rw [h0] at hlen
        simp at hlen
        omega
    next hcs =>
      exact hinv
  next hap =>
    exact hinv

/-- The end-of-generation bookkeeping (adaptive parameters, selector
statistics, history append) leaves the tracked best data unchanged. -/
theorem endOfGeneration_inv (st : DEState) (recs : GenRecords)
    (hinv : DEInv st) : DEInv (endOfGeneration st recs) := by
  obtain ⟨hlen, hbi, hbest, hatt⟩ := hinv
  exact ⟨hlen, hbi, hbest, hatt⟩

end InvariantLemmas

/-- **C10**: the optimizer-state invariant — `best_fitness` equals the minimum
of the cached fitness array and `fitness[best_idx]` attains it (with
`best_idx` in range and fitness matching the population) — is established by
`initialize_population` (for a positive population size) and preserved by
every per-individual step of `optimize` (replacement by a strictly better
trial and the global-best update), by the population shrink (which keeps the
best-ranked individuals sorted by fitness and resets `best_idx` to `0`), and
by the end-of-generation bookkeeping. -/
theorem C10_best_tracking_invariant :
    (∀ (p : DEParams) (o : Oracle), 1 ≤ p.popsize →
      DEInv (initialize_population p o).1) ∧
    (∀ (p : DEParams) (st : DEState) (i : ℕ) (recs : GenRecords) (o : Oracle),
      DEInv st → i < st.population.length →
      DEInv (evolveIndividual p st i recs o).1) ∧
    (∀ (p : DEParams) (st : DEState), DEInv st →
      DEInv (update_population_size p st)) ∧
    (∀ (st : DEState) (recs : GenRecords), DEInv st →
      DEInv (endOfGeneration st recs)) :=
  ⟨fun p o hp => initialize_population_inv p o hp,
   fun p st i recs o h hi => evolveIndividual_inv p st i recs o h hi,
   fun p st h => update_population_size_inv p st h,
   fun st recs h => endOfGeneration_inv st recs h⟩

/-- The invariant theorem exercised on the sample configuration: the
initialized state satisfies the invariant, and each step of a generation
preserves it there. -/
theorem C10_witness :
    DEInv (initialize_population sampleParams sampleOracle).1 ∧
    DEInv (evolveIndividual sampleParams sampleState 0 ⟨[], [], []⟩
      sampleOracle).1 ∧
    DEInv (update_population_size sampleParams sampleState) ∧
    DEInv (endOfGeneration sampleState ⟨[], [], []⟩) := by
  obtain ⟨h1, h2, h3, h4⟩ := C10_best_tracking_invariant
  have hinit : DEInv sampleState := h1 sampleParams sampleOracle (by decide)
  have hl : sampleState.population.length = sampleParams.popsize :=
    drawPopulation_length sampleParams.bounds sampleParams.popsize sampleOracle
  have hpos : 0 < sampleState.population.length := by
    rw [hl]
    decide
  exact ⟨h1 sampleParams sampleOracle (by decide),
    h2 sampleParams sampleState 0 ⟨[], [], []⟩ sampleOracle hinit hpos,
    h3 sampleParams sampleState hinit,
    h4 sampleState ⟨[], [], []⟩ hinit⟩

section ConeCounterexample

/-- The per-point test passes at a point whose dot product with the axis and
squared distance from the vertex are known rationals clearing the squared
cosine threshold. -/
theorem pointOk_true_of_sq {V d p : Vec3} {s : ℝ} (c A B : ℝ)
    (hs : 0 ≤ s) (hc : 0 ≤ c) (hsc : s ^ 2 + c ^ 2 = 1)
    (hA : Vec3.dot (p - V) d = A) (hB : Vec3.dot (p - V) (p - V) = B)
    (hBpos : 0 < B) (hnz : (1e-9 : ℝ) ^ 2 ≤ B)
    (hA0 : 0 ≤ A) (hcB : c ^ 2 * B ≤ A ^ 2) (hAB : A ^ 2 ≤ B) :
    pointOk V d (Real.arcsin s) p = true := by
  apply pointOk_of_beta_le
  · exact vecnorm_not_lt (by rw [hB]; exact hnz)
  · rw [pointBeta, Vec3.norm, hA, hB]
    exact arccos_clip_le_arcsin hs hc hsc (le_ratio hBpos hc hA0 hcB)
      (ratio_le_one hBpos hAB)

/-- The angle at a point whose squared cosine falls strictly below the
threshold strictly exceeds the half-angle. -/
theorem pointBeta_gt_of_sq {V d p : Vec3} {s : ℝ} (c A B : ℝ)
    (hs : 0 ≤ s) (hc : 0 < c) (hsc : s ^ 2 + c ^ 2 = 1)
    (hA : Vec3.dot (p - V) d = A) (hB : Vec3.dot (p - V) (p - V) = B)
    (hBpos : 0 < B) (hA0 : 0 ≤ A) (hlt : A ^ 2 < c ^ 2 * B) :
    Real.arcsin s < pointBeta V d p := by
  rw [pointBeta, Vec3.norm, hA, hB]
  exact arcsin_lt_arccos_clip hs hc.le hsc
    (le_trans (by norm_num) (div_nonneg hA0 (Real.sqrt_nonneg B)))
    (ratio_lt hBpos hc hA0 hlt)

end ConeCounterexample

/-- C1. Refuted as stated: with the observer at `(0, 0, 1)`, the cylinder
with bottom center `(48/5, 0, 0)`, radius `7` and height `10`, and the cloud
center `(150/13, 0, 151/26)` lying on the observer-to-target-center line at
distance `25/2 > CLOUD_RADIUS`, `check_full_obscuration` returns `true`
although the bottom-rim point `(27/5, 28/5, 0)` subtends an angle strictly
greater than `asin(CLOUD_RADIUS / distance)` at the observer: the claimed
equivalence between the return value and `asin(r/d) ≥` the rim's angular
radius fails, because the code tests only the two candidate points in the
vertex–center–axis plane, and those are not the angular extrema of a rim
circle whose normal leaves that plane. -/
theorem C1_full_obscuration_not_iff :
    ((⟨150/13, 0, 151/26⟩ : Vec3) - ⟨0, 0, 1⟩) =
        (125/104 : ℝ) • ((⟨48/5, 0, 5⟩ : Vec3) - ⟨0, 0, 1⟩) ∧
    (⟨48/5, 0, 5⟩ : Vec3) = (⟨48/5, 0, 0⟩ : Vec3) + ⟨0, 0, (10 : ℝ)/2⟩ ∧
    Vec3.norm ((⟨150/13, 0, 151/26⟩ : Vec3) - ⟨0, 0, 1⟩) = 25/2 ∧
    CLOUD_RADIUS < 25/2 ∧
    check_full_obscuration ⟨0, 0, 1⟩ ⟨150/13, 0, 151/26⟩
      ⟨7, 10, ⟨48/5, 0, 0⟩⟩ = true ∧
    Vec3.norm ((⟨27/5, 28/5, 0⟩ : Vec3) - ⟨48/5, 0, 0⟩) = 7 ∧
    Real.arcsin (CLOUD_RADIUS /
        Vec3.norm ((⟨150/13, 0, 151/26⟩ : Vec3) - ⟨0, 0, 1⟩)) <
      pointBeta ⟨0, 0, 1⟩
        ((Vec3.norm ((⟨150/13, 0, 151/26⟩ : Vec3) - ⟨0, 0, 1⟩))⁻¹ •
          ((⟨150/13, 0, 151/26⟩ : Vec3) - ⟨0, 0, 1⟩))
        ⟨27/5, 28/5, 0⟩ := by
  have hVd : ((⟨150/13, 0, 151/26⟩ : Vec3) - ⟨0, 0, 1⟩) =
      ⟨150/13, 0, 125/26⟩ := by
    simp only [Vec3.sub_def, Vec3.mk.injEq]
    norm_num
  have hdist : Vec3.norm (⟨150/13, 0, 125/26⟩ : Vec3) = 25/2 :=
    vecnorm_eq (by norm_num) (by norm_num [Vec3.dot])
  have hd2 : ((25/2 : ℝ))⁻¹ • (⟨150/13, 0, 125/26⟩ : Vec3) =
      ⟨12/13, 0, 5/13⟩ := by
    simp only [Vec3.smul_def, Vec3.mk.injEq]
    norm_num
  have hhalf : CLOUD_RADIUS / (25/2 : ℝ) = 4/5 := by
    rw [CLOUD_RADIUS]
    norm_num
  have htcEq : TargetCylinder.top_center ⟨7, 10, ⟨48/5, 0, 0⟩⟩ =
      (⟨48/5, 0, 10⟩ : Vec3) := by
    rw [TargetCylinder.top_center]
    dsimp only []
    simp only [Vec3.add_def, Vec3.mk.injEq]
    norm_num
  have hsubB : ((⟨48/5, 0, 0⟩ : Vec3) - ⟨0, 0, 1⟩) = ⟨48/5, 0, -1⟩ := by
    simp only [Vec3.sub_def, Vec3.mk.injEq]
    norm_num
  have hcrB : Vec3.cross (⟨48/5, 0, -1⟩ : Vec3) ⟨12/13, 0, 5/13⟩ =
      ⟨0, -60/13, 0⟩ := by
    simp only [Vec3.cross, Vec3.mk.injEq]
    norm_num
  have hcrBn : Vec3.norm (⟨0, -60/13, 0⟩ : Vec3) = 60/13 :=
    vecnorm_eq (by norm_num) (by norm_num [Vec3.dot])
  have hvcBn : Vec3.norm (⟨48/5, 0, -1⟩ : Vec3) ≤ 10 :=
    vecnorm_le (by norm_num) (by norm_num [Vec3.dot])
  have hb0 : ¬ Vec3.norm (Vec3.cross ((⟨48/5, 0, 0⟩ : Vec3) - ⟨0, 0, 1⟩)
      ⟨12/13, 0, 5/13⟩) < 1e-6 *
        Vec3.norm ((⟨48/5, 0, 0⟩ : Vec3) - ⟨0, 0, 1⟩) := by
    rw [hsubB, hcrB, hcrBn]
    exact not_lt.mpr (by linarith)
  have hidB : Vec3.cross (⟨0, -60/13, 0⟩ : Vec3) ⟨0, 0, -1⟩ =
      ⟨60/13, 0, 0⟩ := by
    simp only [Vec3.cross, Vec3.mk.injEq]
    norm_num
  have hidBn : Vec3.norm (⟨60/13, 0, 0⟩ : Vec3) = 60/13 :=
    vecnorm_eq (by norm_num) (by norm_num [Vec3.dot])
  have huB : (Vec3.norm (⟨60/13, 0, 0⟩ : Vec3))⁻¹ • (⟨60/13, 0, 0⟩ : Vec3) =
      ⟨1, 0, 0⟩ := by
    rw [hidBn]
    simp only [Vec3.smul_def, Vec3.mk.injEq]
    norm_num
  have hp1B : (⟨48/5, 0, 0⟩ : Vec3) + (7 : ℝ) • (⟨1, 0, 0⟩ : Vec3) =
      ⟨83/5, 0, 0⟩ := by
    simp only [Vec3.smul_def, Vec3.add_def, Vec3.mk.injEq]
    norm_num
  have hp2B : (⟨48/5, 0, 0⟩ : Vec3) - (7 : ℝ) • (⟨1, 0, 0⟩ : Vec3) =
      ⟨13/5, 0, 0⟩ := by
    simp only [Vec3.smul_def, Vec3.sub_def, Vec3.mk.injEq]
    norm_num
  have hokB1 : pointOk ⟨0, 0, 1⟩ ⟨12/13, 0, 5/13⟩ (Real.arcsin (4/5))
      ⟨83/5, 0, 0⟩ = true :=
    pointOk_true_of_sq (3/5) (971/65) (6914/25) (by norm_num) (by norm_num)
      (by norm_num) (by norm_num [Vec3.sub_def, Vec3.dot])
      (by norm_num [Vec3.sub_def, Vec3.dot]) (by norm_num) (by norm_num)
      (by norm_num) (by norm_num) (by norm_num)
  have hokB2 : pointOk ⟨0, 0, 1⟩ ⟨12/13, 0, 5/13⟩ (Real.arcsin (4/5))
      ⟨13/5, 0, 0⟩ = true :=
    pointOk_true_of_sq (3/5) (131/65) (194/25) (by norm_num) (by norm_num)
      (by norm_num) (by norm_num [Vec3.sub_def, Vec3.dot])
      (by norm_num [Vec3.sub_def, Vec3.dot]) (by norm_num) (by norm_num)
      (by norm_num) (by norm_num) (by norm_num)
  have hbot : check_circle_in_cone ⟨0, 0, 1⟩ ⟨12/13, 0, 5/13⟩
      (Real.arcsin (4/5)) ⟨48/5, 0, 0⟩ 7 ⟨0, 0, -1⟩ = true := by
    rw [check_circle_general hb0, hsubB, hcrB, hidB, huB, hp1B, hp2B,
      hokB1, hokB2]
    rfl
  have hsubT : ((⟨48/5, 0, 10⟩ : Vec3) - ⟨0, 0, 1⟩) = ⟨48/5, 0, 9⟩ := by
    simp only [Vec3.sub_def, Vec3.mk.injEq]
    norm_num
  have hcrT : Vec3.cross (⟨48/5, 0, 9⟩ : Vec3) ⟨12/13, 0, 5/13⟩ =
      ⟨0, 60/13, 0⟩ := by
    simp only [Vec3.cross, Vec3.mk.injEq]
    norm_num
  have hcrTn : Vec3.norm (⟨0, 60/13, 0⟩ : Vec3) = 60/13 :=
    vecnorm_eq (by norm_num) (by norm_num [Vec3.dot])
  have hvcTn : Vec3.norm (⟨48/5, 0, 9⟩ : Vec3) ≤ 14 :=
    vecnorm_le (by norm_num) (by norm_num [Vec3.dot])
  have hb1 : ¬ Vec3.norm (Vec3.cross ((⟨48/5, 0, 10⟩ : Vec3) - ⟨0, 0, 1⟩)
      ⟨12/13, 0, 5/13⟩) < 1e-6 *
        Vec3.norm ((⟨48/5, 0, 10⟩ : Vec3) - ⟨0, 0, 1⟩) := by
    rw [hsubT, hcrT, hcrTn]
    exact not_lt.mpr (by linarith)
  have hidT : Vec3.cross (⟨0, 60/13, 0⟩ : Vec3) ⟨0, 0, 1⟩ =
      ⟨60/13, 0, 0⟩ := by
    simp only [Vec3.cross, Vec3.mk.injEq]
    norm_num
  have hp1T : (⟨48/5, 0, 10⟩ : Vec3) + (7 : ℝ) • (⟨1, 0, 0⟩ : Vec3) =
      ⟨83/5, 0, 10⟩ := by
    simp only [Vec3.smul_def, Vec3.add_def, Vec3.mk.injEq]
    norm_num
  have hp2T : (⟨48/5, 0, 10⟩ : Vec3) - (7 : ℝ) • (⟨1, 0, 0⟩ : Vec3) =
      ⟨13/5, 0, 10⟩ := by
    simp only [Vec3.smul_def, Vec3.sub_def, Vec3.mk.injEq]
    norm_num
  have hokT1 : pointOk ⟨0, 0, 1⟩ ⟨12/13, 0, 5/13⟩ (Real.arcsin (4/5))
      ⟨83/5, 0, 10⟩ = true :=
    pointOk_true_of_sq (3/5) (1221/65) (8914/25) (by norm_num) (by norm_num)
      (by norm_num) (by norm_num [Vec3.sub_def, Vec3.dot])
      (by norm_num [Vec3.sub_def, Vec3.dot]) (by norm_num) (by norm_num)
      (by norm_num) (by norm_num) (by norm_num)
  have hokT2 : pointOk ⟨0, 0, 1⟩ ⟨12/13, 0, 5/13⟩ (Real.arcsin (4/5))
      ⟨13/5, 0, 10⟩ = true :=
    pointOk_true_of_sq (3/5) (381/65) (2194/25) (by norm_num) (by norm_num)
      (by norm_num) (by norm_num [Vec3.sub_def, Vec3.dot])
      (by norm_num [Vec3.sub_def, Vec3.dot]) (by norm_num) (by norm_num)
      (by norm_num) (by norm_num) (by norm_num)
  have htop : check_circle_in_cone ⟨0, 0, 1⟩ ⟨12/13, 0, 5/13⟩
      (Real.arcsin (4/5)) ⟨48/5, 0, 10⟩ 7 ⟨0, 0, 1⟩ = true := by
    rw [check_circle_general hb1, hsubT, hcrT, hidT, huB, hp1T, hp2T,
      hokT1, hokT2]
    rfl
  refine ⟨?_, ?_, ?_, ?_, ?_, ?_, ?_⟩
  · simp only [Vec3.sub_def, Vec3.smul_def, Vec3.mk.injEq]
    norm_num
  · simp only [Vec3.add_def, Vec3.mk.injEq]
    norm_num
  · rw [hVd]
    exact hdist
  · rw [CLOUD_RADIUS]
    norm_num
  · rw [check_full_obscuration]
    dsimp only []
    rw [hVd, hdist, if_neg (by rw [CLOUD_RADIUS]; norm_num), hd2, hhalf,
      htcEq, hbot, htop]
    norm_num
  · refine vecnorm_eq (by norm_num) ?_
    rw [Vec3.sub_def]
    norm_num [Vec3.dot]
  · rw [hVd, hdist, hd2, hhalf]
    exact pointBeta_gt_of_sq (3/5) (299/65) (1538/25) (by norm_num)
      (by norm_num) (by norm_num) (by norm_num [Vec3.sub_def, Vec3.dot])
      (by norm_num [Vec3.sub_def, Vec3.dot]) (by norm_num) (by norm_num)
      (by norm_num)

end Spec2Proof
